import Mathlib

/-!
# Verification of the layer-websdk synchronization core

A shallow embedding, in Lean 4, of the parts of the `layer-websdk`
client that the specification talks about:

* `src/client-authenticator.js` — the connect / authenticate / ready
  session state machine, the xhr request fixups and the non-sync retry
  loop (`ClientAuthenticator` namespace below);
* `src/db-manager.js` — the IndexedDB persistence manager, in its two
  versions contained in the source file (`DbV1` for the first version's
  `_writeObjects`, `DbManager` for the second version with `isDisabled`,
  `deleteObjects` and `getObjects`);
* the durable-store `claim` primitive of the spec's §4.1, whose
  implementation is not part of the sources (`DurableStore` namespace,
  modelled from the spec).

JavaScript strings used as header names are embedded as `List Char`
(`.toLowerCase()` becomes `List.map Char.toLower`); strings used as keys
of IndexedDB tables are embedded as `String` with its lexicographic
order; payloads that the code never inspects stay opaque type
parameters.
-/

set_option autoImplicit false

namespace LayerWebSDK

/-! ## Session data (client-authenticator.js)

State of one `ClientAuthenticator` instance.  `localSession` is the
parsed content of `localStorage[LOCALSTORAGE_KEYS.SESSIONDATA + appId]`
(`none` when the key is absent), `hasLocalStorage` is whether
`global.localStorage` exists at all, `dbManager` is whether
`this.dbManager` has been created (it is `null` until `_clientReady`),
`dbCache` is whether the IndexedDB tables still hold cached data, and
`syncQueue` is the list of operation ids queued in the sync manager. -/

/-- The parsed record stored under `LOCALSTORAGE_KEYS.SESSIONDATA + appId`:
`{ sessionToken, userId, expires }` as written by `_authComplete`. -/
structure SessionRecord where
  sessionToken : String
  userId : String
  expires : Nat
deriving DecidableEq, Repr

/-- The subset of `persistenceFeatures` the modelled code reads
(`_isPersistedSessionsDisabled` only looks at `.sessionToken`). -/
structure PersistenceFeatures where
  sessionToken : Bool
deriving DecidableEq, Repr

/-- Events triggered on the client (plus `nonceRequest`, marking that
`connect` issued the `POST /nonces` request instead of reusing a
session token). -/
inductive ClientEvent where
  | connected
  | authenticated
  | ready
  | deauthenticated
  | challenge (nonce : String)
  | nonceRequest
deriving DecidableEq, Repr

/-- The state of a `ClientAuthenticator` instance: its boolean state
flags, `sessionToken`/`userId`, the environment it runs in
(`isTrustedDevice`, `hasLocalStorage`, `persistenceFeatures`) and the
persisted data it can touch (`localSession`, `dbCache`, `syncQueue`). -/
structure ClientState where
  appId : String
  isConnected : Bool
  isAuthenticated : Bool
  isReady : Bool
  isDestroyed : Bool
  isTrustedDevice : Bool
  hasLocalStorage : Bool
  persistenceFeatures : Option PersistenceFeatures
  sessionToken : String
  userId : String
  localSession : Option SessionRecord
  dbManager : Bool
  dbCache : Bool
  syncQueue : List String
deriving DecidableEq, Repr

namespace ClientAuthenticator

/-- `_isPersistedSessionsDisabled()`:
`!global.localStorage || this.persistenceFeatures && !this.persistenceFeatures.sessionToken`. -/
def _isPersistedSessionsDisabled (s : ClientState) : Bool :=
  !s.hasLocalStorage ||
    (match s.persistenceFeatures with
     | some pf => !pf.sessionToken
     | none => false)

/-- `_restoreLastSession()`: reads the persisted session record; removes
it when expired (`parsedData.expires < Date.now()`), otherwise sets
`this.sessionToken` from it.  `now` is `Date.now()`. -/
def _restoreLastSession (s : ClientState) (now : Nat) : ClientState :=
  if _isPersistedSessionsDisabled s then s
  else
    match s.localSession with
    | none => s
    | some rec =>
      if rec.expires < now then { s with localSession := none }
      else { s with sessionToken := rec.sessionToken }

/-- `_hasUserIdChanged(userId)`: compares the persisted record's userId
with the one being logged in; any exception (for example
`global.localStorage` being undefined) yields `true`. -/
def _hasUserIdChanged (s : ClientState) (userId : String) : Bool :=
  if !s.hasLocalStorage then true
  else
    match s.localSession with
    | none => false
    | some rec => rec.userId != userId

/-- `_clearStoredData()`: `dbManager.deleteTables()` when the dbManager
exists, and removal of the localStorage session entry when localStorage
exists.  `deleteTables` itself is not among the sources; clearing the
cached tables is its documented effect. -/
def _clearStoredData (s : ClientState) : ClientState :=
  let s := if s.dbManager then { s with dbCache := false } else s
  if s.hasLocalStorage then { s with localSession := none } else s

/-- `_clientReady()`: fills in `persistenceFeatures` when absent or when
the device is untrusted, creates the dbManager when absent, and flags
the client ready (triggering `ready`) when it was not already. -/
def _clientReady (s : ClientState) : ClientState × List ClientEvent :=
  let s :=
    if s.persistenceFeatures.isNone || !s.isTrustedDevice then
      { s with persistenceFeatures := some ⟨s.isTrustedDevice⟩ }
    else s
  let s := if !s.dbManager then { s with dbManager := true } else s
  if !s.isReady then ({ s with isReady := true }, [ClientEvent.ready])
  else (s, [])

/-- `_sessionTokenRestored()`: flags connected and authenticated
(triggering both events) and completes readiness. -/
def _sessionTokenRestored (s : ClientState) : ClientState × List ClientEvent :=
  let s := { s with isConnected := true }
  let s := { s with isAuthenticated := true }
  let (s, evts) := _clientReady s
  (s, ClientEvent.connected :: ClientEvent.authenticated :: evts)

/-- `_authenticate(nonce)`: triggers the `challenge` event when the
nonce is non-empty. -/
def _authenticate (s : ClientState) (nonce : String) :
    ClientState × List ClientEvent :=
  if nonce ≠ "" then (s, [ClientEvent.challenge nonce]) else (s, [])

/-- `_connectionComplete(result)`: flags connected, triggers `connected`
and starts authentication with the received nonce. -/
def _connectionComplete (s : ClientState) (nonce : String) :
    ClientState × List ClientEvent :=
  let s := { s with isConnected := true }
  let (s, evts) := _authenticate s nonce
  (s, ClientEvent.connected :: evts)

/-- `_authComplete(result)`: requires a non-empty `session_token`
(otherwise the code throws), stores it, persists
`{sessionToken, userId, expires: Date.now() + 30*60*60*24}` to
localStorage unless persisted sessions are disabled, flags
authenticated (triggering `authenticated`) and completes readiness. -/
def _authComplete (s : ClientState) (session_token : String) (now : Nat) :
    ClientState × List ClientEvent :=
  let s := { s with sessionToken := session_token }
  let s :=
    if !_isPersistedSessionsDisabled s then
      { s with localSession := some ⟨s.sessionToken, s.userId, now + 30 * 60 * 60 * 24⟩ }
    else s
  let s := { s with isAuthenticated := true }
  let (s, evts) := _clientReady s
  (s, ClientEvent.authenticated :: evts)

/-- `_resetSession()`: clears readiness, the session token and its
localStorage entry, the connected and authenticated flags, and triggers
`deauthenticated`. -/
def _resetSession (s : ClientState) : ClientState × List ClientEvent :=
  let s := { s with isReady := false }
  let s :=
    if s.sessionToken ≠ "" then
      let s := { s with sessionToken := "" }
      if s.hasLocalStorage then { s with localSession := none } else s
    else s
  let s := { s with isConnected := false, isAuthenticated := false }
  (s, [ClientEvent.deauthenticated])

/-- `connect(userId)`: clears stored data unless this is a trusted
device logging in the same user with persisted sessions enabled,
restores the last session for a trusted device, sets `userId`, and
either reuses the restored session token (`_sessionTokenRestored`) or
issues the `POST /nonces` request.  The `this.userId = userId`
assignment runs `__adjustUserId`, which only throws here when
`isAuthenticated` is set (`isConnected` is false by then); this
function models the non-throwing executions. -/
def connect (s : ClientState) (userId : String) (now : Nat) :
    ClientState × List ClientEvent :=
  let s := { s with isConnected := false }
  let s :=
    if !s.isTrustedDevice || userId == "" || _isPersistedSessionsDisabled s
        || _hasUserIdChanged s userId then
      _clearStoredData s
    else s
  let s :=
    if s.isTrustedDevice && userId != "" then _restoreLastSession s now else s
  let s := { s with userId := userId }
  if s.sessionToken ≠ "" then _sessionTokenRestored s
  else (s, [ClientEvent.nonceRequest])

/-- `connectWithSession(userId, sessionToken)` (synchronous part):
requires both arguments non-empty (otherwise the code throws), clears
stored data unless a trusted same-user device with persistence, sets
`userId` and flags connected.  The `_authComplete` call it schedules on
a timer is a separate transition. -/
def connectWithSession (s : ClientState) (userId : String) :
    ClientState × List ClientEvent :=
  let s :=
    if !s.isTrustedDevice || _isPersistedSessionsDisabled s
        || _hasUserIdChanged s userId then
      _clearStoredData s
    else s
  let s := { s with userId := userId }
  let s := { s with isConnected := true }
  (s, [])

/-- The result object the xhr layer hands to `_xhrResult`.  `nonce` is
what `result.data.getNonce()` returns on an auth error (the nonce
carried in the error response). -/
structure XhrResult where
  success : Bool
  status : Nat
  nonce : String
deriving DecidableEq, Repr

/-- `_xhrResult(result, callback)`: on a destroyed client nothing
happens and the callback is not invoked.  On a 401 failure received
while authenticated, flags deauthenticated (without touching the
session token, the stored data or the sync queue) and re-enters the
challenge flow with the nonce of the error response.  The callback is
invoked with the result in every non-destroyed case.  Returns the new
state, the triggered events, and whether the callback was invoked. -/
def _xhrResult (s : ClientState) (result : XhrResult) :
    ClientState × List ClientEvent × Bool :=
  if s.isDestroyed then (s, [], false)
  else
    if !result.success && result.status == 401 && s.isAuthenticated then
      let s := { s with isAuthenticated := false }
      let (s, evts) := _authenticate s result.nonce
      (s, ClientEvent.deauthenticated :: evts, true)
    else (s, [], true)

/-- `__adjustUserId(userId)`: whether assigning `userId` throws
`cantChangeIfConnected`. -/
def __adjustUserId (s : ClientState) (userId : String) : Bool :=
  (s.isConnected && s.userId != "" && s.userId != userId) || s.isAuthenticated

/-- `__adjustAppId()`: whether assigning `appId` throws
`cantChangeIfConnected`. -/
def __adjustAppId (s : ClientState) : Bool :=
  s.isConnected

/-- Modelled from the spec: `Root.initClass` (root.js, not among the
sources) wires `__adjustUserId` into the `userId` property setter — the
assignment throws and leaves the property unchanged when the adjust
method throws, and stores the new value otherwise. -/
def setUserId (s : ClientState) (userId : String) : Except Unit ClientState :=
  if __adjustUserId s userId then Except.error ()
  else Except.ok { s with userId := userId }

/-- Modelled from the spec: the `appId` property setter, wired to
`__adjustAppId` the same way. -/
def setAppId (s : ClientState) (appId : String) : Except Unit ClientState :=
  if __adjustAppId s then Except.error ()
  else Except.ok { s with appId := appId }

/-- `MAX_XHR_RETRIES` (client-authenticator.js line 45). -/
def MAX_XHR_RETRIES : Nat := 3

/-- `[502, 503, 504].indexOf(result.status) !== -1`. -/
def isGatewayStatus (status : Nat) : Bool :=
  status == 502 || status == 503 || status == 504

/-- `_nonsyncXhr(options, callback, retryCount)`: fires the request; on
a 502/503/504 result with `retryCount < MAX_XHR_RETRIES`, refires after
a 1000 ms `setTimeout` with `retryCount + 1`; otherwise hands the
result to `_xhrResult` (which reports it to the callback).  `attempts k`
is the transport's result for the k-th firing of the request; the
returned list holds the delay scheduled before each refire. -/
def _nonsyncXhr (attempts : Nat → XhrResult) (retryCount : Nat) :
    List Nat × XhrResult :=
  let result := attempts retryCount
  if h : isGatewayStatus result.status ∧ retryCount < MAX_XHR_RETRIES then
    let rest := _nonsyncXhr attempts (retryCount + 1)
    (1000 :: rest.1, rest.2)
  else ([], result)
termination_by MAX_XHR_RETRIES + 1 - retryCount
decreasing_by
  have := h.2
  omega

/-- A freshly constructed client: the prototype defaults of the state
flags and strings, with the environment (trusted device, localStorage
and its persisted record, persistence features, existing IndexedDB
data) arbitrary. -/
def initialState (appId : String) (isTrustedDevice hasLocalStorage : Bool)
    (pf : Option PersistenceFeatures) (ls : Option SessionRecord)
    (dbCache : Bool) : ClientState :=
  { appId := appId
    isConnected := false
    isAuthenticated := false
    isReady := false
    isDestroyed := false
    isTrustedDevice := isTrustedDevice
    hasLocalStorage := hasLocalStorage
    persistenceFeatures := pf
    sessionToken := ""
    userId := ""
    localSession := ls
    dbManager := false
    dbCache := dbCache
    syncQueue := [] }

/-- The states reachable through the session operations, read literally:
each listed operation may fire from any reachable state in which it does
not throw (`connect` and `connectWithSession` throw through
`__adjustUserId` when assigning `userId`; `connectWithSession` requires
both arguments, `_authComplete` a non-empty `session_token`). -/
inductive ReachableSpec : ClientState → Prop where
  | init (appId : String) (isTrustedDevice hasLocalStorage : Bool)
      (pf : Option PersistenceFeatures) (ls : Option SessionRecord)
      (dbCache : Bool) :
      ReachableSpec (initialState appId isTrustedDevice hasLocalStorage pf ls dbCache)
  | connect {s : ClientState} (u : String) (now : Nat) :
      ReachableSpec s → s.isAuthenticated = false →
      ReachableSpec (connect s u now).1
  | connectWithSession {s : ClientState} (u tok : String) :
      ReachableSpec s → u ≠ "" → tok ≠ "" → __adjustUserId s u = false →
      ReachableSpec (connectWithSession s u).1
  | connectionComplete {s : ClientState} (nonce : String) :
      ReachableSpec s → ReachableSpec (_connectionComplete s nonce).1
  | authComplete {s : ClientState} (tok : String) (now : Nat) :
      ReachableSpec s → tok ≠ "" → ReachableSpec (_authComplete s tok now).1
  | sessionTokenRestored {s : ClientState} :
      ReachableSpec s → ReachableSpec (_sessionTokenRestored s).1
  | resetSession {s : ClientState} :
      ReachableSpec s → ReachableSpec (_resetSession s).1
  | xhrResult {s : ClientState} (r : XhrResult) :
      ReachableSpec s → ReachableSpec (_xhrResult s r).1

/-- The states reachable through the session operations when each
operation additionally honours the precondition of its in-code call
sites: `_authComplete` only fires while connected (it completes
`connectWithSession` or a successful challenge round-trip),
`_sessionTokenRestored` only with a non-empty restored token (its only
call site in `connect` checks `this.sessionToken`), and a persisted
session record always carries a non-empty token (records are only
written by `_authComplete`). -/
inductive Reachable : ClientState → Prop where
  | init (appId : String) (isTrustedDevice hasLocalStorage : Bool)
      (pf : Option PersistenceFeatures) (ls : Option SessionRecord)
      (dbCache : Bool) :
      (∀ r, ls = some r → r.sessionToken ≠ "") →
      Reachable (initialState appId isTrustedDevice hasLocalStorage pf ls dbCache)
  | connect {s : ClientState} (u : String) (now : Nat) :
      Reachable s → s.isAuthenticated = false →
      Reachable (connect s u now).1
  | connectWithSession {s : ClientState} (u tok : String) :
      Reachable s → u ≠ "" → tok ≠ "" → __adjustUserId s u = false →
      Reachable (connectWithSession s u).1
  | connectionComplete {s : ClientState} (nonce : String) :
      Reachable s → Reachable (_connectionComplete s nonce).1
  | authComplete {s : ClientState} (tok : String) (now : Nat) :
      Reachable s → tok ≠ "" → s.isConnected = true →
      Reachable (_authComplete s tok now).1
  | sessionTokenRestored {s : ClientState} :
      Reachable s → s.sessionToken ≠ "" →
      Reachable (_sessionTokenRestored s).1
  | resetSession {s : ClientState} :
      Reachable s → Reachable (_resetSession s).1
  | xhrResult {s : ClientState} (r : XhrResult) :
      Reachable s → Reachable (_xhrResult s r).1

/-- The spec's session invariant (§3): Authenticated/Ready imply
Connected, and the session token is non-empty only in
Authenticated/Ready. -/
def SessionInvariant (s : ClientState) : Prop :=
  ((s.isAuthenticated = true ∨ s.isReady = true) → s.isConnected = true) ∧
  (s.sessionToken ≠ "" → (s.isAuthenticated = true ∨ s.isReady = true))

/-- Strengthening of `SessionInvariant` that is inductive for the
guarded transition relation. -/
def AuthInvariant (s : ClientState) : Prop :=
  (s.isAuthenticated = true → s.isConnected = true) ∧
  (s.isReady = true → s.isConnected = true) ∧
  (s.sessionToken ≠ "" → (s.isAuthenticated = true ∨ s.isReady = true)) ∧
  (s.isReady = true → s.sessionToken ≠ "") ∧
  (s.isAuthenticated = true → s.isReady = true) ∧
  (∀ r, s.localSession = some r → r.sessionToken ≠ "")

/-- The state `connect` has built just before it tests
`this.sessionToken` (a definitional prefix of `connect`, introduced for
the proofs). -/
def connectPrelude (s : ClientState) (u : String) (now : Nat) : ClientState :=
  let s := { s with isConnected := false }
  let s :=
    if !s.isTrustedDevice || u == "" || _isPersistedSessionsDisabled s
        || _hasUserIdChanged s u then
      _clearStoredData s
    else s
  let s := if s.isTrustedDevice && u != "" then _restoreLastSession s now else s
  { s with userId := u }

/-- Modelled from the spec: the sync manager (sync-manager.js is not
among the sources) keeps queued operations across deauthentication and,
once reauthenticated, dispatches exactly the operations still in its
queue, in order, without the caller resubmitting them. -/
def replayAfterReauth (queue : List String) : List String :=
  queue

/-! ## xhr request fixups (client-authenticator.js)

Header names are JavaScript strings embedded as `List Char`
(`.toLowerCase()` is `List.map Char.toLower`); header values are opaque
and stay `String`.  A JavaScript object used as a header dictionary is
an association list with unique keys: property update keeps the key's
position, a new property is appended, `delete` removes it. -/

/-- `headerName.toLowerCase()`. -/
def toLowerCase (name : List Char) : List Char :=
  name.map Char.toLower

/-- A header dictionary: association list from names to values. -/
abbrev Headers := List (List Char × String)

/-- Property read `headers[k]`. -/
def hfind (headers : Headers) (k : List Char) : Option String :=
  (headers.find? (fun p => p.1 == k)).map Prod.snd

/-- Property write `headers[k] = v`. -/
def hset (headers : Headers) (k : List Char) (v : String) : Headers :=
  if headers.any (fun p => p.1 == k) then
    headers.map (fun p => if p.1 == k then (k, v) else p)
  else headers ++ [(k, v)]

/-- `delete headers[k]`. -/
def hdel (headers : Headers) (k : List Char) : Headers :=
  headers.filter (fun p => !(p.1 == k))

/-- JavaScript falsiness of a property read: the property is absent or
its value is the empty string. -/
def jsFalsy (v : Option String) : Bool :=
  v.isNone || v == some ""

/-- Modelled from the spec: the `ACCEPT` constant of const.js (not
among the sources); its value does not matter to the claims, only that
it is what the `accept` header defaults to. -/
def ACCEPT : String :=
  "application/vnd.layer+json; version=1.0"

/-- One step of the `headerNameList.forEach` loop of `_xhrFixHeaders`:
`if (headerName !== headerName.toLowerCase()) {
headers[headerName.toLowerCase()] = headers[headerName];
delete headers[headerName]; }`. -/
def fixHeaderNameStep (hs : Headers) (headerName : List Char) : Headers :=
  if headerName ≠ toLowerCase headerName then
    hdel (hset hs (toLowerCase headerName) ((hfind hs headerName).getD ""))
      headerName
  else hs

/-- `_xhrFixHeaders(headers)`: renames every header whose name is not
already lower case to its lower-case name (iterating over a snapshot of
the keys), then defaults `accept` and `content-type` when falsy. -/
def _xhrFixHeaders (headers : Headers) : Headers :=
  let headerNameList := headers.map Prod.fst
  let headers := headerNameList.foldl fixHeaderNameStep headers
  let headers :=
    if jsFalsy (hfind headers "accept".data) then
      hset headers "accept".data ACCEPT
    else headers
  if jsFalsy (hfind headers "content-type".data) then
    hset headers "content-type".data "application/json"
  else headers

/-- `_xhrFixAuth(headers)`: when a session token is set and
`headers.Authorization` (capital A) is falsy, writes the
`authorization` header from the session token. -/
def _xhrFixAuth (sessionToken : String) (headers : Headers) : Headers :=
  if sessionToken ≠ "" && jsFalsy (hfind headers "Authorization".data) then
    hset headers "authorization".data
      ("Layer session-token=\"" ++ sessionToken ++ "\"")
  else headers

/-- `url.indexOf(pat) !== -1` (substring containment). -/
def listContainsSub (pat : List Char) : List Char → Bool
  | [] => pat.isEmpty
  | c :: rest => pat.isPrefixOf (c :: rest) || listContainsSub pat rest

/-- `_xhrFixRelativeUrls(url)`: a url not containing `https://` is
prefixed with `this.url`, inserting a `/` unless the url already starts
with one. -/
def _xhrFixRelativeUrls (base url : List Char) : List Char :=
  if !listContainsSub "https://".data url then
    if url.head? = some '/' then base ++ url else base ++ '/' :: url
  else url

/-- Specification-side description of the name-lowering pass
(introduced for the proofs): every entry whose name is listed in `ns`
carries its lower-cased name, the others are untouched. -/
def applyLowerIn (ns : List (List Char)) (hs : Headers) : Headers :=
  hs.map (fun p => if p.1 ∈ ns then (toLowerCase p.1, p.2) else p)

/-- The fixups `xhr(options, callback)` applies to a plain
(`sync: false`, no sync target) request before handing it to
`_nonsyncXhr`: the url rewrite, then `_xhrFixHeaders`, then
`_xhrFixAuth`. -/
def xhrFixup (sessionToken : String) (base url : List Char)
    (headers : Headers) : List Char × Headers :=
  let url := _xhrFixRelativeUrls base url
  let headers := _xhrFixHeaders headers
  let headers := _xhrFixAuth sessionToken headers
  (url, headers)

end ClientAuthenticator

/-! ## db-manager.js, first version: `_writeObjects`

An IndexedDB object store is an association list from primary keys to
records; `store.add` fails (invoking `onerror`) exactly when the key is
already present, `store.put` upserts. -/

namespace DbV1

/-- `store.add(item)`: `none` is the `ConstraintError` on a duplicate
key. -/
def idbAdd {V : Type} (table : List (String × V)) (item : String × V) :
    Option (List (String × V)) :=
  if table.any (fun p => p.1 == item.1) then none
  else some (table ++ [item])

/-- `store.put(item)`: replace the record under the key, or append. -/
def idbPut {V : Type} (table : List (String × V)) (item : String × V) :
    List (String × V) :=
  if table.any (fun p => p.1 == item.1) then
    table.map (fun p => if p.1 == item.1 then item else p)
  else table ++ [item]

/-- One `store.add(item)` request with its `onerror` fallback
`substore.put(item)` in a fresh transaction: returns the resulting
table and whether the `put` fallback ran. -/
def writeItem {V : Type} (table : List (String × V)) (item : String × V) :
    List (String × V) × Bool :=
  match idbAdd table item with
  | some t => (t, false)
  | none => (idbPut table item, true)

/-- `_writeObjects(db, isUpdate, tableName, data, callback)` (first
version of db-manager.js): issues an add-with-put-fallback per item;
`isUpdate` is unused by the live code (the `isUpdate ? put : add`
choice is commented out).  Returns the resulting table and the number
of per-item callback invocations (each item calls back exactly once,
from `onsuccess` of the add or of the fallback put). -/
def _writeObjects {V : Type} (isUpdate : Bool) (table : List (String × V))
    (data : List (String × V)) : List (String × V) × Nat :=
  data.foldl (fun acc item => ((writeItem acc.1 item).1, acc.2 + 1)) (table, 0)

end DbV1

/-! ## db-manager.js, second version: the `DbManager` class

The database is a family of object stores (`conversations`, `messages`,
`identities`, `sync-queue`) addressed by table name; record payloads are
an opaque type parameter `V`.  Every operation funnels through
`onOpen`, which silently returns when `isDisabled` is set — in that case
no transaction is opened and no callback is invoked. -/

namespace DbManager

/-- The persistent state a `DbManager` instance controls: the
`isDisabled` flag and the object stores. -/
structure DbState (V : Type) where
  isDisabled : Bool
  tables : String → List (String × V)

/-- An entity handed to the write/delete entry points: its `id`, the
mapped record written to the store (the field-by-field item built by
`writeConversations`/`writeMessages`, opaque here), and its
`_fromIndexedDB` flag. -/
structure DbEntity (V : Type) where
  id : String
  item : V
  fromIndexedDB : Bool

/-- Replace one named table. -/
def updateTable {V : Type} (db : DbState V) (tableName : String)
    (f : List (String × V) → List (String × V)) : DbState V :=
  { db with tables := fun t => if t = tableName then f (db.tables t) else db.tables t }

/-- `_writeObjects(isUpdate, tableName, data)` (second version): inside
`onOpen` — a no-op when disabled — issues `store.add(item)` with an
`onerror` fallback `put(item)` per item, as in the first version. -/
def _writeObjectsV2 {V : Type} (db : DbState V) (isUpdate : Bool)
    (tableName : String) (data : List (String × V)) : DbState V :=
  if db.isDisabled then db
  else updateTable db tableName
    (fun table => data.foldl (fun t item => (DbV1.writeItem t item).1) table)

/-- `writeConversations(conversations, isUpdate)`: drops entities
flagged `_fromIndexedDB` (resetting the flag on the caller's objects),
maps the rest to their stored items and writes them to the
`conversations` table. -/
def writeConversations {V : Type} (db : DbState V)
    (conversations : List (DbEntity V)) (isUpdate : Bool) : DbState V :=
  let data := (conversations.filter (fun c => !c.fromIndexedDB)).map
    (fun c => (c.id, c.item))
  _writeObjectsV2 db isUpdate "conversations" data

/-- `writeMessages(messages, isUpdate)`: same pipeline into the
`messages` table. -/
def writeMessages {V : Type} (db : DbState V) (messages : List (DbEntity V))
    (isUpdate : Bool) : DbState V :=
  let data := (messages.filter (fun m => !m.fromIndexedDB)).map
    (fun m => (m.id, m.item))
  _writeObjectsV2 db isUpdate "messages" data

/-- `deleteObjects(tableName, data)`: inside `onOpen`,
`store.delete(item.id)` per entity. -/
def deleteObjects {V : Type} (db : DbState V) (tableName : String)
    (data : List (DbEntity V)) : DbState V :=
  if db.isDisabled then db
  else updateTable db tableName
    (fun table => data.foldl
      (fun t item => t.filter (fun p => !(p.1 == item.id))) table)

/-- `_loadAll(tableName, callback)`: inside `onOpen`, walks the whole
table with a cursor and calls back once with every record; `none` means
the callback was never invoked (disabled store). -/
def _loadAll {V : Type} (db : DbState V) (tableName : String) :
    Option (List V) :=
  if db.isDisabled then none
  else some ((db.tables tableName).map Prod.snd)

/-- `_loadByIndex(tableName, indexName, indexValue, callback)`: cursor
over the records whose indexed field (`indexFn`) equals `indexValue`. -/
def _loadByIndex {V : Type} (db : DbState V) (tableName : String)
    (indexFn : V → String) (indexValue : String) : Option (List V) :=
  if db.isDisabled then none
  else some (((db.tables tableName).filter
    (fun p => indexFn p.2 == indexValue)).map Prod.snd)

/-- `loadConversations(callback)`: `_loadAll` on `conversations` (the
`client._createObject` conversion of each raw record happens in code
that is not among the sources; the callback receives the raw records
here). -/
def loadConversations {V : Type} (db : DbState V) : Option (List V) :=
  _loadAll db "conversations"

/-- `loadMessages(conversationId, callback)`: `_loadByIndex` on
`messages` by the `conversation` index (`convOf` reads that field of a
stored record). -/
def loadMessages {V : Type} (db : DbState V) (conversationId : String)
    (convOf : V → String) : Option (List V) :=
  _loadByIndex db "messages" convOf conversationId

/-- The `while (key > sortedIds[index]) index++;` loop of `getObjects`:
advances `index` past the ids below `key` (`key > undefined` is false,
so it stops at the end of the array). -/
def skipBelow (sortedIds : List String) (index : Nat) (key : String) : Nat :=
  if h : index < sortedIds.length then
    if sortedIds.get ⟨index, h⟩ < key then skipBelow sortedIds (index + 1) key
    else index
  else index
termination_by sortedIds.length - index

/-- The cursor walk of `getObjects`: each `onsuccess` step advances
`index` past the ids below the cursor's key, collects the record when
the key is the id at `index`, and either invokes the callback (when the
ids are exhausted) or jumps the cursor to the next requested id
(`cursor.continue(sortedIds[index])` skips every record below it).  A
null cursor (table exhausted) also invokes the callback.  Each
invocation of the callback contributes one element to the returned
list. -/
def getObjectsCursor {V : Type} (records : List (String × V))
    (sortedIds : List String) (index : Nat) (results : List V) :
    List (List V) :=
  match records with
  | [] => [results]
  | (key, value) :: rest =>
    let index := skipBelow sortedIds index key
    let matched : Bool :=
      if h : index < sortedIds.length then sortedIds.get ⟨index, h⟩ == key
      else false
    let results := if matched then results ++ [value] else results
    let index := if matched then index + 1 else index
    if h : index < sortedIds.length then
      getObjectsCursor
        (rest.dropWhile (fun p => decide (p.1 < sortedIds.get ⟨index, h⟩)))
        sortedIds index results
    else [results]
termination_by records.length
decreasing_by
  simp only [List.length_cons]
  exact Nat.lt_succ_of_le ((List.dropWhile_sublist _).length_le)

/-- Reformulation of `getObjectsCursor` for the proofs: the position
`index` into `sortedIds` is replaced by the suffix of `sortedIds` it
points at. -/
def getObjectsCursorSuffix {V : Type} (records : List (String × V))
    (ids : List String) (results : List V) : List (List V) :=
  match records with
  | [] => [results]
  | (key, value) :: rest =>
    let ids := ids.dropWhile (fun i => decide (i < key))
    match ids with
    | [] => [results]
    | id0 :: restIds =>
      if id0 = key then
        match restIds with
        | [] => [results ++ [value]]
        | id1 :: _ =>
          getObjectsCursorSuffix
            (rest.dropWhile (fun p => decide (p.1 < id1))) restIds
            (results ++ [value])
      else
        getObjectsCursorSuffix
          (rest.dropWhile (fun p => decide (p.1 < id0))) (id0 :: restIds)
          results
termination_by records.length
decreasing_by
  all_goals
    simp only [List.length_cons]
    exact Nat.lt_succ_of_le ((List.dropWhile_sublist _).length_le)

/-- `getObjects(tableName, ids, callback)`: sorts the requested ids
(JavaScript `ids.sort()`, lexicographic), then inside `onOpen` — a
no-op when disabled — walks the table with the cursor.  The returned
list holds the argument of each callback invocation. -/
def getObjects {V : Type} (db : DbState V) (tableName : String)
    (ids : List String) : List (List V) :=
  let sortedIds := ids.mergeSort (fun a b => a ≤ b)
  if db.isDisabled then []
  else getObjectsCursor (db.tables tableName) sortedIds 0 []

end DbManager

/-! ## The durable-store claim primitive (spec §4.1)

Modelled from the spec: the `claim` operation of the Durable Queue
Store is not among the sources (only the spec describes it). -/

namespace DurableStore

/-- Modelled from the spec: `claim(op)` — an atomic read-then-delete of
the record keyed by the operation id within one transaction, returning
whether the record still existed.  The store is the list of queued
record keys. -/
def claim (store : List String) (id : String) : Bool × List String :=
  (decide (id ∈ store), store.erase id)

/-- Modelled from the spec: a recovered record is dispatched only after
a successful claim; a lost claim race dispatches nothing. -/
def dispatchIfClaimed (claimed : Bool) (id : String) : List String :=
  if claimed then [id] else []

end DurableStore

lemma find?_map_replace {K V : Type} [BEq K] [LawfulBEq K]
    (l : List (K × V)) (item : K × V)
    (h : l.any (fun p => p.1 == item.1) = true) :
    (l.map (fun p => if p.1 == item.1 then item else p)).find?
      (fun p => p.1 == item.1) = some item := by
  induction l with
  | nil => simp at h
  | cons hd tl ih =>
    simp only [List.any_cons, Bool.or_eq_true] at h
    by_cases hh : (hd.1 == item.1) = true
    · rw [List.map_cons, if_pos hh, List.find?_cons_of_pos _ (by simp)]
    · have htl : tl.any (fun p => p.1 == item.1) = true := by
        rcases h with h | h
        · exact absurd h hh
        · exact h
      have hh' : (hd.1 == item.1) = false := by simpa using hh
      rw [List.map_cons, if_neg hh]
      simp only [List.find?_cons, hh', ih htl]

lemma find?_append_single {K V : Type} [BEq K] [LawfulBEq K]
    (l : List (K × V)) (item : K × V)
    (h : l.any (fun p => p.1 == item.1) = false) :
    (l ++ [item]).find? (fun p => p.1 == item.1) = some item := by
  induction l with
  | nil => simp
  | cons hd tl ih =>
    simp only [List.any_cons, Bool.or_eq_false_iff] at h
    simp only [List.cons_append, List.find?_cons, h.1, ih h.2]

lemma find?_map_replace_other {K V : Type} [BEq K] [LawfulBEq K]
    (l : List (K × V)) (item : K × V) (k' : K)
    (hne : (item.1 == k') = false) :
    (l.map (fun p => if p.1 == item.1 then item else p)).find?
      (fun p => p.1 == k') = l.find? (fun p => p.1 == k') := by
  induction l with
  | nil => rfl
  | cons hd tl ih =>
    by_cases hh : (hd.1 == item.1) = true
    · have heq : hd.1 = item.1 := eq_of_beq hh
      rw [List.map_cons, if_pos hh]
      simp only [List.find?_cons, heq, hne, ih]
    · have hh' : (hd.1 == item.1) = false := by simpa using hh
      rw [List.map_cons, if_neg (by simp [hh'])]
      cases hhd : hd.1 == k' <;> simp only [List.find?_cons, hhd, ih]

lemma find?_append_nomatch {K V : Type} [BEq K] (l : List (K × V))
    (item : K × V) (pr : K × V → Bool) (h : pr item = false) :
    (l ++ [item]).find? pr = l.find? pr := by
  induction l with
  | nil => simp [List.find?, h]
  | cons hd tl ih =>
    cases hpr : pr hd <;>
      simp only [List.cons_append, List.find?_cons, hpr, ih]

namespace ClientAuthenticator

lemma clientReady_fields (s : ClientState) :
    (_clientReady s).1.isConnected = s.isConnected ∧
    (_clientReady s).1.isAuthenticated = s.isAuthenticated ∧
    (_clientReady s).1.isReady = true ∧
    (_clientReady s).1.sessionToken = s.sessionToken ∧
    (_clientReady s).1.localSession = s.localSession := by
  simp only [_clientReady]
  split <;> split <;> split <;> simp_all

lemma clientReady_events (s : ClientState) (h : s.isReady = false) :
    (_clientReady s).2 = [ClientEvent.ready] := by
  simp only [_clientReady]
  split <;> split <;> simp_all

lemma sessionTokenRestored_spec (s : ClientState) :
    (_sessionTokenRestored s).1.sessionToken = s.sessionToken ∧
    (_sessionTokenRestored s).1.isAuthenticated = true ∧
    (_sessionTokenRestored s).1.isConnected = true ∧
    (s.isReady = false →
      (_sessionTokenRestored s).2 =
        [ClientEvent.connected, ClientEvent.authenticated, ClientEvent.ready]) := by
  have hf := clientReady_fields { s with isConnected := true, isAuthenticated := true }
  refine ⟨?_, ?_, ?_, ?_⟩
  · simpa only [_sessionTokenRestored] using hf.2.2.2.1
  · simpa only [_sessionTokenRestored] using hf.2.1
  · simpa only [_sessionTokenRestored] using hf.1
  · intro h
    have he := clientReady_events
      { s with isConnected := true, isAuthenticated := true } (by simpa using h)
    simp only [_sessionTokenRestored, he]

lemma authInvariant_sessionTokenRestored (s : ClientState)
    (h6 : ∀ r, s.localSession = some r → r.sessionToken ≠ "")
    (htok : s.sessionToken ≠ "") :
    AuthInvariant (_sessionTokenRestored s).1 := by
  have hf := clientReady_fields { s with isConnected := true, isAuthenticated := true }
  simp only [_sessionTokenRestored, AuthInvariant]
  simp_all

lemma authInvariant_authComplete (s : ClientState) (tok : String) (now : Nat)
    (h6 : ∀ r, s.localSession = some r → r.sessionToken ≠ "")
    (htok : tok ≠ "") (hconn : s.isConnected = true) :
    AuthInvariant (_authComplete s tok now).1 := by
  simp only [_authComplete, AuthInvariant]
  split
  · have hf := clientReady_fields
      { s with
        sessionToken := tok,
        localSession := some ⟨tok, s.userId, now + 30 * 60 * 60 * 24⟩,
        isAuthenticated := true }
    simp_all
  · have hf := clientReady_fields
      { s with sessionToken := tok, isAuthenticated := true }
    simp_all

lemma authInvariant_resetSession (s : ClientState) (h : AuthInvariant s) :
    AuthInvariant (_resetSession s).1 := by
  obtain ⟨-, -, -, -, -, h6⟩ := h
  simp only [_resetSession, AuthInvariant]
  split <;> [split; skip] <;> simp_all

lemma authInvariant_connectionComplete (s : ClientState) (nonce : String)
    (h : AuthInvariant s) : AuthInvariant (_connectionComplete s nonce).1 := by
  obtain ⟨-, -, h3, h4, h5, h6⟩ := h
  simp only [_connectionComplete, _authenticate, AuthInvariant]
  split <;> simp_all

lemma authInvariant_xhrResult (s : ClientState) (r : XhrResult)
    (h : AuthInvariant s) : AuthInvariant (_xhrResult s r).1 := by
  obtain ⟨h1, h2, h3, h4, h5, h6⟩ := h
  simp only [_xhrResult, _authenticate, AuthInvariant]
  split
  · exact ⟨h1, h2, h3, h4, h5, h6⟩
  · split
    · next hcond =>
      have hauth : s.isAuthenticated = true := by
        simp only [Bool.and_eq_true] at hcond
        exact hcond.2
      split <;> simp_all
    · exact ⟨h1, h2, h3, h4, h5, h6⟩

lemma authInvariant_connectWithSession (s : ClientState) (u : String)
    (h : AuthInvariant s) (hadj : __adjustUserId s u = false) :
    AuthInvariant (connectWithSession s u).1 := by
  obtain ⟨h1, h2, h3, h4, h5, h6⟩ := h
  have hauth : s.isAuthenticated = false := by
    simp only [__adjustUserId, Bool.or_eq_false_iff] at hadj
    exact hadj.2
  simp only [connectWithSession, _clearStoredData, AuthInvariant]
  repeat' split
  all_goals simp_all

lemma connect_eq (s : ClientState) (u : String) (now : Nat) :
    connect s u now =
      (if (connectPrelude s u now).sessionToken ≠ "" then
        _sessionTokenRestored (connectPrelude s u now)
      else (connectPrelude s u now, [ClientEvent.nonceRequest])) := rfl

lemma clearStoredData_spec (s : ClientState) :
    (_clearStoredData s).isConnected = s.isConnected ∧
    (_clearStoredData s).isAuthenticated = s.isAuthenticated ∧
    (_clearStoredData s).isReady = s.isReady ∧
    (_clearStoredData s).sessionToken = s.sessionToken ∧
    (∀ r, (_clearStoredData s).localSession = some r → s.localSession = some r) := by
  simp only [_clearStoredData]
  repeat' split
  all_goals simp_all

lemma restoreLastSession_spec (s : ClientState) (now : Nat) :
    (_restoreLastSession s now).isConnected = s.isConnected ∧
    (_restoreLastSession s now).isAuthenticated = s.isAuthenticated ∧
    (_restoreLastSession s now).isReady = s.isReady ∧
    ((_restoreLastSession s now).sessionToken = s.sessionToken ∨
      ∃ r, s.localSession = some r ∧
        (_restoreLastSession s now).sessionToken = r.sessionToken) ∧
    (∀ r, (_restoreLastSession s now).localSession = some r →
      s.localSession = some r) := by
  simp only [_restoreLastSession]
  repeat' split
  all_goals simp_all

lemma connectPrelude_spec (s : ClientState) (u : String) (now : Nat) :
    (connectPrelude s u now).isConnected = false ∧
    (connectPrelude s u now).isAuthenticated = s.isAuthenticated ∧
    (connectPrelude s u now).isReady = s.isReady ∧
    ((connectPrelude s u now).sessionToken = s.sessionToken ∨
      ∃ r, s.localSession = some r ∧
        (connectPrelude s u now).sessionToken = r.sessionToken) ∧
    (∀ r, (connectPrelude s u now).localSession = some r →
      s.localSession = some r) := by
  simp only [connectPrelude]
  split <;> split
  case isTrue h2 =>
    obtain ⟨c1, c2, c3, c4, c5⟩ := clearStoredData_spec { s with isConnected := false }
    obtain ⟨r1, r2, r3, r4, r5⟩ :=
      restoreLastSession_spec (_clearStoredData { s with isConnected := false }) now
    refine ⟨by simp_all, by simp_all, by simp_all, ?_, ?_⟩
    · rcases r4 with h | ⟨r, hr, hr2⟩
      · exact Or.inl (by simp_all)
      · exact Or.inr ⟨r, c5 r hr, by simp_all⟩
    · intro r hr
      exact c5 r (r5 r (by simp_all))
  case isFalse h2 =>
    obtain ⟨c1, c2, c3, c4, c5⟩ := clearStoredData_spec { s with isConnected := false }
    exact ⟨by simp_all, by simp_all, by simp_all, Or.inl (by simp_all),
      fun r hr => c5 r (by simp_all)⟩
  case isTrue h2 =>
    obtain ⟨r1, r2, r3, r4, r5⟩ :=
      restoreLastSession_spec { s with isConnected := false } now
    refine ⟨by simp_all, by simp_all, by simp_all, ?_, ?_⟩
    · rcases r4 with h | ⟨r, hr, hr2⟩
      · exact Or.inl (by simp_all)
      · exact Or.inr ⟨r, by simp_all, by simp_all⟩
    · intro r hr
      have := r5 r (by simp_all)
      simp_all
  case isFalse h2 =>
    exact ⟨by simp, by simp, by simp, Or.inl (by simp), fun r hr => by simp_all⟩

lemma authInvariant_connect (s : ClientState) (u : String) (now : Nat)
    (h : AuthInvariant s) (hauth : s.isAuthenticated = false) :
    AuthInvariant (connect s u now).1 := by
  obtain ⟨h1, h2, h3, h4, h5, h6⟩ := h
  obtain ⟨p1, p2, p3, p4, p5⟩ := connectPrelude_spec s u now
  rw [connect_eq]
  split
  · next htok =>
    exact authInvariant_sessionTokenRestored _ (fun r hr => h6 r (p5 r hr)) htok
  · next htok =>
    have htok' : (connectPrelude s u now).sessionToken = "" := by
      simpa using htok
    have hstok : s.sessionToken = "" := by
      rcases p4 with h | ⟨r, hr, hr2⟩
      · rw [← h, htok']
      · exact absurd (hr2.symm.trans htok') (h6 r hr)
    have hready : s.isReady = false := by
      by_contra hh
      exact h4 (by simpa using hh) hstok
    refine ⟨?_, ?_, ?_, ?_, ?_, ?_⟩
    · intro hx
      rw [p2, hauth] at hx
      exact absurd hx (by simp)
    · intro hx
      rw [p3, hready] at hx
      exact absurd hx (by simp)
    · intro hx
      exact absurd htok' hx
    · intro hx
      rw [p3, hready] at hx
      exact absurd hx (by simp)
    · intro hx
      rw [p2, hauth] at hx
      exact absurd hx (by simp)
    · intro r hr
      exact h6 r (p5 r hr)

lemma authInvariant_initialState (appId : String)
    (isTrustedDevice hasLocalStorage : Bool) (pf : Option PersistenceFeatures)
    (ls : Option SessionRecord) (dbCache : Bool)
    (hok : ∀ r, ls = some r → r.sessionToken ≠ "") :
    AuthInvariant (initialState appId isTrustedDevice hasLocalStorage pf ls dbCache) := by
  refine ⟨by simp [initialState], by simp [initialState], by simp [initialState],
    by simp [initialState], by simp [initialState], ?_⟩
  intro r hr
  exact hok r hr

lemma authInvariant_of_reachable {s : ClientState} (h : Reachable s) :
    AuthInvariant s := by
  induction h with
  | init appId isTrustedDevice hasLocalStorage pf ls dbCache hok =>
    exact authInvariant_initialState appId isTrustedDevice hasLocalStorage pf ls dbCache hok
  | connect u now _ hauth ih => exact authInvariant_connect _ u now ih hauth
  | connectWithSession u tok _ _ _ hadj ih =>
    exact authInvariant_connectWithSession _ u ih hadj
  | connectionComplete nonce _ ih =>
    exact authInvariant_connectionComplete _ nonce ih
  | authComplete tok now _ htok hconn ih =>
    exact authInvariant_authComplete _ tok now ih.2.2.2.2.2 htok hconn
  | sessionTokenRestored _ htok ih =>
    exact authInvariant_sessionTokenRestored _ ih.2.2.2.2.2 htok
  | resetSession _ ih => exact authInvariant_resetSession _ ih
  | xhrResult r _ ih => exact authInvariant_xhrResult _ r ih

/-- **C4** (amended): in every state of `ClientAuthenticator` reachable
through the session operations — where `_authComplete` fires only while
`isConnected` holds and `_sessionTokenRestored` only with a non-empty
session token, matching their in-code call sites, and any persisted
session record carries a non-empty token — `isAuthenticated` or
`isReady` implies `isConnected`, and `sessionToken` is non-empty only
when `isAuthenticated` or `isReady` holds. -/
theorem c4_session_invariant (s : ClientState) (h : Reachable s) :
    SessionInvariant s := by
  obtain ⟨h1, h2, h3, -, -, -⟩ := authInvariant_of_reachable h
  exact ⟨fun hx => hx.elim h1 h2, h3⟩

/-- Witness for C4: the state reached by `connectWithSession` followed
by its scheduled `_authComplete` satisfies the invariant. -/
theorem c4_session_invariant_witness :
    SessionInvariant
      (_authComplete
        (connectWithSession
          (initialState "layer:///apps/staging/uuid" false true none none false)
          "alice").1
        "token-abc" 100).1 :=
  c4_session_invariant _
    (Reachable.authComplete "token-abc" 100
      (Reachable.connectWithSession "alice" "token-abc"
        (Reachable.init "layer:///apps/staging/uuid" false true none none false
          (by simp))
        (by decide) (by decide) (by decide))
      (by decide) (by decide))

/-- **C4** counterexample: over the literal reading of the claim — the
listed operations firing from any reachable state in which they do not
throw — `_authComplete` can fire from a disconnected state (in the code
this happens when the timer of `connectWithSession` or a `/sessions`
response outruns an intervening state change), producing a state that
is authenticated but not connected. -/
theorem c4_counterexample :
    ¬ (∀ s : ClientState, ReachableSpec s → SessionInvariant s) := by
  intro h
  have hr : ReachableSpec
      (_authComplete (initialState "layer:///apps/staging/uuid" false true none none false)
        "token-abc" 0).1 :=
    ReachableSpec.authComplete "token-abc" 0
      (ReachableSpec.init "layer:///apps/staging/uuid" false true none none false)
      (by decide)
  have h1 := (h _ hr).1 (Or.inl (by decide))
  exact absurd h1 (by decide)

/-- **C1**: a result with HTTP status 401 received while
`isAuthenticated` is set flags the client deauthenticated, triggers the
`deauthenticated` event and re-enters the challenge flow by calling
`_authenticate` with the nonce carried in the error response; the
session token, the persisted session record, the cached tables and the
sync queue are untouched, the callback still fires, and the operations
replayed after reauthentication are exactly those queued before the
401. -/
theorem c1_xhr401_reauthenticates (s : ClientState) (r : XhrResult)
    (hdes : s.isDestroyed = false) (hsucc : r.success = false)
    (hstat : r.status = 401) (hauth : s.isAuthenticated = true)
    (hnonce : r.nonce ≠ "") :
    (_xhrResult s r).1.isAuthenticated = false ∧
    (_xhrResult s r).2.1 =
      [ClientEvent.deauthenticated, ClientEvent.challenge r.nonce] ∧
    (_xhrResult s r).1.sessionToken = s.sessionToken ∧
    (_xhrResult s r).1.localSession = s.localSession ∧
    (_xhrResult s r).1.dbCache = s.dbCache ∧
    (_xhrResult s r).1.syncQueue = s.syncQueue ∧
    replayAfterReauth (_xhrResult s r).1.syncQueue = s.syncQueue ∧
    (_xhrResult s r).2.2 = true := by
  simp [_xhrResult, _authenticate, replayAfterReauth, hdes, hsucc, hstat, hauth,
    hnonce]

/-- Witness for C1: a concrete authenticated client receiving a 401. -/
theorem c1_xhr401_reauthenticates_witness :
    (({ initialState "app" true true none none true with
          isConnected := true, isAuthenticated := true, isReady := true,
          sessionToken := "tok", syncQueue := ["op1", "op2"] } :
        ClientState).isAuthenticated = true) ∧
    (_xhrResult
        { initialState "app" true true none none true with
            isConnected := true, isAuthenticated := true, isReady := true,
            sessionToken := "tok", syncQueue := ["op1", "op2"] }
        ⟨false, 401, "nonce9"⟩).2.1 =
      [ClientEvent.deauthenticated, ClientEvent.challenge "nonce9"] :=
  ⟨rfl,
    (c1_xhr401_reauthenticates _ ⟨false, 401, "nonce9"⟩ rfl rfl rfl rfl
      (by decide)).2.1⟩

/-- **C10**: the identity binding is immutable once established:
assigning `userId` throws `cantChangeIfConnected` (the state is left
unchanged) when the client is authenticated, or connected with a
non-empty different `userId`; assigning `appId` throws whenever the
client is connected; setting `userId` from empty or to its current
value while merely connected succeeds. -/
theorem c10_identity_binding_immutable (s : ClientState) (v a : String) :
    ((s.isAuthenticated = true ∨
        (s.isConnected = true ∧ s.userId ≠ "" ∧ s.userId ≠ v)) →
      setUserId s v = Except.error ()) ∧
    (s.isConnected = true → setAppId s a = Except.error ()) ∧
    (s.isConnected = true → s.isAuthenticated = false →
      (s.userId = "" ∨ s.userId = v) →
      setUserId s v = Except.ok { s with userId := v }) := by
  refine ⟨?_, ?_, ?_⟩
  · rintro (hauth | ⟨hconn, hne, hnev⟩)
    · simp [setUserId, __adjustUserId, hauth]
    · simp [setUserId, __adjustUserId, hconn, bne_iff_ne, hne, hnev]
  · intro hconn
    simp [setAppId, __adjustAppId, hconn]
  · rintro hconn hauth (hid | hid) <;>
      simp [setUserId, __adjustUserId, hconn, hauth, hid, bne_iff_ne]

/-- Witness for C10: on a connected, authenticated client the `userId`
assignment errors; on a merely connected client with an empty `userId`
it succeeds. -/
theorem c10_identity_binding_immutable_witness :
    setUserId
      { initialState "app" false true none none false with
          isConnected := true, isAuthenticated := true, userId := "alice" }
      "bob" = Except.error () ∧
    setAppId
      { initialState "app" false true none none false with
          isConnected := true }
      "app2" = Except.error () ∧
    setUserId
      { initialState "app" false true none none false with
          isConnected := true }
      "bob" =
      Except.ok
        { initialState "app" false true none none false with
            isConnected := true, userId := "bob" } :=
  ⟨(c10_identity_binding_immutable _ "bob" "a").1 (Or.inl rfl),
    (c10_identity_binding_immutable _ "v" "app2").2.1 rfl,
    (c10_identity_binding_immutable _ "bob" "a").2.2 rfl rfl (Or.inl rfl)⟩

lemma nonsyncXhr_stop (attempts : Nat → XhrResult) (rc : Nat)
    (h : ¬ (isGatewayStatus (attempts rc).status = true ∧ rc < MAX_XHR_RETRIES)) :
    _nonsyncXhr attempts rc = ([], attempts rc) := by
  rw [_nonsyncXhr]
  simp only [dif_neg h]

lemma nonsyncXhr_retry (attempts : Nat → XhrResult) (rc : Nat)
    (hgw : isGatewayStatus (attempts rc).status = true)
    (hlt : rc < MAX_XHR_RETRIES) :
    _nonsyncXhr attempts rc =
      (1000 :: (_nonsyncXhr attempts (rc + 1)).1,
        (_nonsyncXhr attempts (rc + 1)).2) := by
  rw [_nonsyncXhr]
  simp only [dif_pos (And.intro hgw hlt)]

/-- **C3**: a plain (`sync: false`) request hitting 502/503/504 is
refired after a fixed 1000 ms delay up to `MAX_XHR_RETRIES = 3` times;
once the bound is exhausted the fourth result is reported as is, and
the first result with any other status is reported immediately — so 4
gateway failures in a row report the fourth failure after three 1000 ms
delays, and `n ≤ 3` gateway failures followed by a non-gateway result
report that result after `n` delays. -/
theorem c3_nonsync_retry_bound (attempts : Nat → XhrResult) :
    ((∀ k, k ≤ MAX_XHR_RETRIES → isGatewayStatus (attempts k).status = true) →
      _nonsyncXhr attempts 0 = ([1000, 1000, 1000], attempts MAX_XHR_RETRIES)) ∧
    (∀ n, n ≤ MAX_XHR_RETRIES →
      (∀ k, k < n → isGatewayStatus (attempts k).status = true) →
      isGatewayStatus (attempts n).status = false →
      _nonsyncXhr attempts 0 = (List.replicate n 1000, attempts n)) := by
  constructor
  · intro hall
    rw [nonsyncXhr_retry attempts 0 (hall 0 (by decide)) (by decide),
      nonsyncXhr_retry attempts 1 (hall 1 (by decide)) (by decide),
      nonsyncXhr_retry attempts 2 (hall 2 (by decide)) (by decide),
      nonsyncXhr_stop attempts 3 (by simp [MAX_XHR_RETRIES])]
    simp [MAX_XHR_RETRIES]
  · intro n hn hpre hfail
    simp only [MAX_XHR_RETRIES] at hn
    interval_cases n
    · rw [nonsyncXhr_stop attempts 0 (by simp [hfail])]
      simp
    · rw [nonsyncXhr_retry attempts 0 (hpre 0 (by omega)) (by decide),
        nonsyncXhr_stop attempts 1 (by simp [hfail])]
      simp [List.replicate]
    · rw [nonsyncXhr_retry attempts 0 (hpre 0 (by omega)) (by decide),
        nonsyncXhr_retry attempts 1 (hpre 1 (by omega)) (by decide),
        nonsyncXhr_stop attempts 2 (by simp [hfail])]
      simp [List.replicate]
    · rw [nonsyncXhr_retry attempts 0 (hpre 0 (by omega)) (by decide),
        nonsyncXhr_retry attempts 1 (hpre 1 (by omega)) (by decide),
        nonsyncXhr_retry attempts 2 (hpre 2 (by omega)) (by decide),
        nonsyncXhr_stop attempts 3 (by simp [hfail])]
      simp [List.replicate]

/-- Witness for C3: two 503 results followed by a success report the
success after two delays. -/
theorem c3_nonsync_retry_bound_witness :
    _nonsyncXhr
        (fun k => if k < 2 then ⟨false, 503, ""⟩ else ⟨true, 200, ""⟩) 0 =
      ([1000, 1000], ⟨true, 200, ""⟩) := by
  have h :=
    (c3_nonsync_retry_bound
      (fun k => if k < 2 then ⟨false, 503, ""⟩ else ⟨true, 200, ""⟩)).2 2
      (by decide) (fun k hk => by interval_cases k <;> decide) (by decide)
  simpa using h

lemma charToLower_idem (c : Char) : (Char.toLower c).toLower = Char.toLower c := by
  simp only [Char.toLower]
  split
  · next h =>
    obtain ⟨h1, h2⟩ := h
    have hv : Nat.isValidChar (c.toNat + 32) := by
      left
      omega
    have key : (Char.ofNatAux (c.toNat + 32) hv).toNat = c.toNat + 32 := rfl
    rw [Char.ofNat, dif_pos hv]
    split
    · next h3 =>
      rw [key] at h3
      omega
    · rfl
  · rfl

lemma toLowerCase_idem (n : List Char) :
    toLowerCase (toLowerCase n) = toLowerCase n := by
  have hcomp : Char.toLower ∘ Char.toLower = Char.toLower :=
    funext charToLower_idem
  simp [toLowerCase, List.map_map, hcomp]

lemma hset_mem {hs : Headers} {k : List Char} {v : String} {p : List Char × String}
    (h : p ∈ hset hs k v) : p ∈ hs ∨ p = (k, v) := by
  simp only [hset] at h
  split at h
  · rcases List.mem_map.mp h with ⟨q, hq, hpq⟩
    by_cases hqk : (q.1 == k) = true
    · right
      rw [← hpq]
      simp [hqk]
    · left
      rw [← hpq]
      simpa [hqk] using hq
  · rcases List.mem_append.mp h with h | h
    · exact Or.inl h
    · right
      simpa using h

lemma hset_of_not_any {hs : Headers} {k : List Char} (v : String)
    (h : hs.any (fun p => p.1 == k) = false) : hset hs k v = hs ++ [(k, v)] := by
  simp [hset, h]

lemma hmem_of_hfind {hs : Headers} {k : List Char} {v : String}
    (h : hfind hs k = some v) : (k, v) ∈ hs := by
  simp only [hfind] at h
  rcases hfp : hs.find? (fun p => p.1 == k) with - | p
  · rw [hfp] at h
    simp at h
  · rw [hfp] at h
    have hmem := List.mem_of_find?_eq_some hfp
    have hkey := List.find?_some hfp
    simp only [beq_iff_eq] at hkey
    obtain ⟨a, b⟩ := p
    simp only at hkey
    have hv : b = v := by simpa using h
    subst hkey
    subst hv
    exact hmem

lemma hfind_eq_some_of_mem_nodup {hs : Headers} {k : List Char} {v : String}
    (hnd : (hs.map Prod.fst).Nodup) (hmem : (k, v) ∈ hs) :
    hfind hs k = some v := by
  induction hs with
  | nil => simp at hmem
  | cons hd tl ih =>
    simp only [List.map_cons, List.nodup_cons] at hnd
    rcases List.mem_cons.mp hmem with h | h
    · rw [← h]
      simp [hfind, List.find?_cons]
    · have hk : (hd.1 == k) = false := by
        have : k ∈ tl.map Prod.fst := List.mem_map.mpr ⟨(k, v), h, rfl⟩
        simp only [beq_eq_false_iff_ne]
        intro he
        exact hnd.1 (he ▸ this)
      simp only [hfind, List.find?_cons, hk]
      exact ih hnd.2 h

lemma hfind_eq_none_of_not_mem {hs : Headers} {k : List Char}
    (h : k ∉ hs.map Prod.fst) : hfind hs k = none := by
  simp only [hfind]
  rcases hfp : hs.find? (fun p => p.1 == k) with - | p
  · rw [hfp]
    rfl
  · exfalso
    have hmem := List.mem_of_find?_eq_some hfp
    have hkey := List.find?_some hfp
    simp only [beq_iff_eq] at hkey
    exact h (List.mem_map.mpr ⟨p, hmem, hkey⟩)

lemma keys_nodup_of_lower_nodup {hs : Headers}
    (h : (hs.map (fun p => toLowerCase p.1)).Nodup) :
    (hs.map Prod.fst).Nodup := by
  have : hs.map (fun p => toLowerCase p.1) =
      (hs.map Prod.fst).map toLowerCase := by
    simp [List.map_map]
  rw [this] at h
  exact h.of_map

lemma not_any_lower_of_lower_nodup {hs : Headers} {n : List Char} {v : String}
    (hlow : (hs.map (fun p => toLowerCase p.1)).Nodup) (hmem : (n, v) ∈ hs)
    (hne : n ≠ toLowerCase n) :
    hs.any (fun p => p.1 == toLowerCase n) = false := by
  by_contra hany
  have hany' : hs.any (fun p => p.1 == toLowerCase n) = true := by
    simpa using hany
  obtain ⟨q, hq, hqk⟩ := List.any_eq_true.mp hany'
  simp only [beq_iff_eq] at hqk
  have hinj := List.inj_on_of_nodup_map hlow
  have heq : (n, v) = q :=
    hinj hmem hq (by rw [hqk, toLowerCase_idem])
  exact hne ((congrArg Prod.fst heq).trans hqk)

lemma perm_cons_hdel {hs : Headers} {k : List Char} {v : String}
    (hnd : (hs.map Prod.fst).Nodup) (hmem : (k, v) ∈ hs) :
    hs.Perm ((k, v) :: hdel hs k) := by
  induction hs with
  | nil => simp at hmem
  | cons hd tl ih =>
    simp only [List.map_cons, List.nodup_cons] at hnd
    rcases List.mem_cons.mp hmem with h | h
    · subst h
      have hk : ∀ p ∈ tl, (p.1 == k) = false := by
        intro p hp
        simp only [beq_eq_false_iff_ne, ne_eq]
        intro he
        exact hnd.1 (List.mem_map.mpr ⟨p, hp, he⟩)
      have htl : hdel ((k, v) :: tl) k = tl := by
        have h1 : hdel ((k, v) :: tl) k = hdel tl k := by
          simp [hdel, List.filter_cons]
        rw [h1, hdel]
        exact List.filter_eq_self.mpr (fun p hp => by simp [hk p hp])
      rw [htl]
    · have hk : (hd.1 == k) = false := by
        have : k ∈ tl.map Prod.fst := List.mem_map.mpr ⟨(k, v), h, rfl⟩
        simp only [beq_eq_false_iff_ne, ne_eq]
        intro he
        exact hnd.1 (he ▸ this)
      have : hdel (hd :: tl) k = hd :: hdel tl k := by
        simp [hdel, List.filter_cons, hk]
      rw [this]
      exact ((ih hnd.2 h).cons hd).trans (List.Perm.swap _ _ _)

lemma hdel_append (hs hs' : Headers) (k : List Char) :
    hdel (hs ++ hs') k = hdel hs k ++ hdel hs' k :=
  List.filter_append _ _

lemma foldFix_lower (ns : List (List Char)) (hs : Headers)
    (hinv : ∀ p ∈ hs, toLowerCase p.1 = p.1 ∨ p.1 ∈ ns) :
    ∀ p ∈ ns.foldl fixHeaderNameStep hs, toLowerCase p.1 = p.1 := by
  induction ns generalizing hs with
  | nil =>
    intro p hp
    rcases hinv p hp with h | h
    · exact h
    · simp at h
  | cons n ns ih =>
    intro p hp
    rw [List.foldl_cons] at hp
    refine ih (fixHeaderNameStep hs n) ?_ p hp
    intro q hq
    simp only [fixHeaderNameStep] at hq
    split at hq
    · next hne =>
      obtain ⟨hq2, hq3⟩ := List.mem_filter.mp hq
      simp only [Bool.not_eq_eq_eq_not, Bool.not_true, beq_eq_false_iff_ne,
        ne_eq] at hq3
      rcases hset_mem hq2 with hq4 | hq4
      · rcases hinv q hq4 with h | h
        · exact Or.inl h
        · rcases List.mem_cons.mp h with h | h
          · exact absurd h hq3
          · exact Or.inr h
      · left
        rw [hq4]
        exact toLowerCase_idem n
    · next hne =>
      have hn : n = toLowerCase n := by
        by_contra hcon
        exact hne hcon
      rcases hinv q hq with h | h
      · exact Or.inl h
      · rcases List.mem_cons.mp h with h | h
        · left
          rw [h]
          exact hn.symm
        · exact Or.inr h

lemma fixHeaders_lower (hs : Headers) :
    ∀ p ∈ _xhrFixHeaders hs, toLowerCase p.1 = p.1 := by
  have hfold := foldFix_lower (hs.map Prod.fst) hs
    (fun p hp => Or.inr (List.mem_map_of_mem _ hp))
  intro p hp
  simp only [_xhrFixHeaders] at hp
  split at hp
  · split at hp
    · rcases hset_mem hp with hp2 | hp2
      · rcases hset_mem hp2 with hp3 | hp3
        · exact hfold p hp3
        · rw [hp3]
          decide
      · rw [hp2]
        decide
    · rcases hset_mem hp with hp2 | hp2
      · exact hfold p hp2
      · rw [hp2]
        decide
  · split at hp
    · rcases hset_mem hp with hp2 | hp2
      · exact hfold p hp2
      · rw [hp2]
        decide
    · exact hfold p hp

lemma fixupHeaders_lower (tok : String) (hs : Headers) :
    ∀ p ∈ _xhrFixAuth tok (_xhrFixHeaders hs), toLowerCase p.1 = p.1 := by
  intro p hp
  simp only [_xhrFixAuth] at hp
  split at hp
  · rcases hset_mem hp with hp2 | hp2
    · exact fixHeaders_lower hs p hp2
    · rw [hp2]
      show toLowerCase "authorization".data = "authorization".data
      decide
  · exact fixHeaders_lower hs p hp

lemma foldFix_perm (ns : List (List Char)) (hs : Headers)
    (hnsnd : ns.Nodup) (hsub : ∀ n ∈ ns, n ∈ hs.map Prod.fst)
    (hlow : (hs.map (fun p => toLowerCase p.1)).Nodup) :
    (ns.foldl fixHeaderNameStep hs).Perm (applyLowerIn ns hs) := by
  induction ns generalizing hs with
  | nil => simp [applyLowerIn]
  | cons n ns ih =>
    obtain ⟨hn_ns, hnsnd'⟩ := List.nodup_cons.mp hnsnd
    rw [List.foldl_cons]
    have hnkeys : n ∈ hs.map Prod.fst := hsub n (List.mem_cons_self _ _)
    have hkeysnd : (hs.map Prod.fst).Nodup := keys_nodup_of_lower_nodup hlow
    obtain ⟨p, hpmem, hpkey⟩ := List.mem_map.mp hnkeys
    have hv : (n, p.2) ∈ hs := by
      obtain ⟨a, b⟩ := p
      simp only at hpkey
      rwa [hpkey] at hpmem
    set v := p.2 with hvdef
    have hfindv : hfind hs n = some v := hfind_eq_some_of_mem_nodup hkeysnd hv
    by_cases heq : n = toLowerCase n
    · have hstep : fixHeaderNameStep hs n = hs := by
        simp only [fixHeaderNameStep]
        rw [if_neg (not_not_intro heq)]
      rw [hstep]
      have hmapeq : applyLowerIn (n :: ns) hs = applyLowerIn ns hs := by
        apply List.map_congr_left
        intro q _
        obtain ⟨a, b⟩ := q
        simp only [List.mem_cons]
        by_cases h2 : a = n
        · subst h2
          by_cases h1 : a ∈ ns <;> simp [h1, ← heq]
        · by_cases h1 : a ∈ ns <;> simp [h1, h2]
      rw [hmapeq]
      exact ih hs hnsnd' (fun m hm => hsub m (List.mem_cons_of_mem _ hm)) hlow
    · have hne : n ≠ toLowerCase n := heq
      have hstep : fixHeaderNameStep hs n =
          hdel (hset hs (toLowerCase n) v) n := by
        simp [fixHeaderNameStep, hne, hfindv]
      have hnotany : hs.any (fun p => p.1 == toLowerCase n) = false :=
        not_any_lower_of_lower_nodup hlow hv hne
      have hdel_eq : hdel (hset hs (toLowerCase n) v) n =
          hdel hs n ++ [(toLowerCase n, v)] := by
        rw [hset_of_not_any v hnotany, hdel_append]
        congr 1
        simp [hdel, Ne.symm hne]
      have hperm_hs : hs.Perm ((n, v) :: hdel hs n) := perm_cons_hdel hkeysnd hv
      have hsub₁ : ∀ m ∈ ns,
          m ∈ (hdel hs n ++ [(toLowerCase n, v)]).map Prod.fst := by
        intro m hm
        have hmkeys : m ∈ hs.map Prod.fst := hsub m (List.mem_cons_of_mem _ hm)
        have hmn : m ≠ n := fun he => hn_ns (he ▸ hm)
        obtain ⟨q, hq, hqk⟩ := List.mem_map.mp hmkeys
        have hq' : q ∈ hdel hs n :=
          List.mem_filter.mpr ⟨hq, by simp [hqk, hmn]⟩
        exact List.mem_map.mpr ⟨q, List.mem_append.mpr (Or.inl hq'), hqk⟩
      have hlow₁ : ((hdel hs n ++ [(toLowerCase n, v)]).map
          (fun p => toLowerCase p.1)).Nodup := by
        have e1 : (hdel hs n ++ [(toLowerCase n, v)]).map
            (fun p => toLowerCase p.1) =
            (hdel hs n).map (fun p => toLowerCase p.1) ++ [toLowerCase n] := by
          simp [toLowerCase_idem]
        have e2 : (((n, v) :: hdel hs n).map
            (fun p => toLowerCase p.1)) =
            toLowerCase n :: (hdel hs n).map (fun p => toLowerCase p.1) := by
          simp
        have hnd2 : (((n, v) :: hdel hs n).map
            (fun p => toLowerCase p.1)).Nodup :=
          (hperm_hs.map (fun p => toLowerCase p.1)).nodup hlow
        rw [e2] at hnd2
        rw [e1]
        exact ((List.perm_append_singleton _ _).nodup_iff).mpr hnd2
      have hihperm := ih (hdel hs n ++ [(toLowerCase n, v)]) hnsnd' hsub₁ hlow₁
      rw [hstep, hdel_eq]
      refine hihperm.trans ?_
      have hg : applyLowerIn ns (hdel hs n ++ [(toLowerCase n, v)]) =
          applyLowerIn ns (hdel hs n) ++ [(toLowerCase n, v)] := by
        simp only [applyLowerIn, List.map_append, List.map_cons, List.map_nil]
        congr 1
        split <;> simp [toLowerCase_idem]
      have h2 : (applyLowerIn (n :: ns) hs).Perm
          (applyLowerIn (n :: ns) ((n, v) :: hdel hs n)) :=
        hperm_hs.map _
      have h3 : applyLowerIn (n :: ns) ((n, v) :: hdel hs n) =
          (toLowerCase n, v) :: applyLowerIn ns (hdel hs n) := by
        simp only [applyLowerIn, List.map_cons, List.mem_cons,
          if_pos (Or.inl rfl)]
        congr 1
        apply List.map_congr_left
        intro q hq
        have hqn : q.1 ≠ n := by
          have := (List.mem_filter.mp hq).2
          simpa using this
        by_cases hq2 : q.1 ∈ ns <;> simp [hq2, hqn]
      rw [hg]
      refine (List.perm_append_singleton _ _).trans ?_
      rw [← h3]
      exact h2.symm

lemma applyLowerIn_keys (hs : Headers) :
    applyLowerIn (hs.map Prod.fst) hs =
      hs.map (fun p => (toLowerCase p.1, p.2)) := by
  apply List.map_congr_left
  intro q hq
  rw [if_pos (List.mem_map.mpr ⟨q, hq, rfl⟩)]

lemma foldFix_full_perm (hs : Headers)
    (hlow : (hs.map (fun p => toLowerCase p.1)).Nodup) :
    ((hs.map Prod.fst).foldl fixHeaderNameStep hs).Perm
      (hs.map (fun p => (toLowerCase p.1, p.2))) := by
  have h := foldFix_perm (hs.map Prod.fst) hs
    (keys_nodup_of_lower_nodup hlow) (fun n hn => hn) hlow
  rwa [applyLowerIn_keys] at h

lemma foldFix_keys_nodup (hs : Headers)
    (hlow : (hs.map (fun p => toLowerCase p.1)).Nodup) :
    (((hs.map Prod.fst).foldl fixHeaderNameStep hs).map Prod.fst).Nodup := by
  have hperm := (foldFix_full_perm hs hlow).map Prod.fst
  apply hperm.nodup_iff.mpr
  have : (hs.map (fun p => (toLowerCase p.1, p.2))).map Prod.fst =
      hs.map (fun p => toLowerCase p.1) := by
    simp [List.map_map]
  rw [this]
  exact hlow

lemma foldFix_find (hs : Headers)
    (hlow : (hs.map (fun p => toLowerCase p.1)).Nodup)
    (p : List Char × String) (hmem : p ∈ hs) :
    hfind ((hs.map Prod.fst).foldl fixHeaderNameStep hs) (toLowerCase p.1) =
      some p.2 := by
  apply hfind_eq_some_of_mem_nodup (foldFix_keys_nodup hs hlow)
  exact (foldFix_full_perm hs hlow).mem_iff.mpr
    (List.mem_map.mpr ⟨p, hmem, rfl⟩)

lemma foldFix_find_none (hs : Headers)
    (hlow : (hs.map (fun p => toLowerCase p.1)).Nodup) (k : List Char)
    (habs : ∀ p ∈ hs, toLowerCase p.1 ≠ k) :
    hfind ((hs.map Prod.fst).foldl fixHeaderNameStep hs) k = none := by
  apply hfind_eq_none_of_not_mem
  intro hk
  have hperm := (foldFix_full_perm hs hlow).map Prod.fst
  have hk2 : k ∈ hs.map (fun p => toLowerCase p.1) := by
    have := hperm.mem_iff.mp hk
    simpa [List.map_map] using this
  obtain ⟨p, hp, hpk⟩ := List.mem_map.mp hk2
  exact habs p hp hpk

lemma hfind_none_of_upper (hs : Headers)
    (hall : ∀ p ∈ hs, toLowerCase p.1 = p.1) (k : List Char)
    (hk : toLowerCase k ≠ k) : hfind hs k = none := by
  apply hfind_eq_none_of_not_mem
  intro hmem
  obtain ⟨p, hp, hpk⟩ := List.mem_map.mp hmem
  exact hk (hpk ▸ hall p hp)

lemma hfind_hset_self (hs : Headers) (k : List Char) (v : String) :
    hfind (hset hs k v) k = some v := by
  by_cases hany : hs.any (fun p => p.1 == k) = true
  · have h := find?_map_replace hs ((k, v) : List Char × String) (by simpa using hany)
    simp only [hset, if_pos hany, hfind, h]
    rfl
  · have hany' : hs.any (fun p => p.1 == k) = false := Bool.eq_false_iff.mpr hany
    have h := find?_append_single hs ((k, v) : List Char × String)
      (by simpa using hany')
    simp only [hset, hany', Bool.false_eq_true, if_false, hfind, h]
    rfl

lemma hfind_hset_other (hs : Headers) (k : List Char) (v : String)
    (k' : List Char) (hne : k' ≠ k) :
    hfind (hset hs k v) k' = hfind hs k' := by
  have hkk : ((k, v).1 == k') = false := by
    simp only [beq_eq_false_iff_ne, ne_eq]
    exact fun h => hne h.symm
  simp only [hset]
  split
  · simp only [hfind]
    rw [find?_map_replace_other hs ((k, v) : List Char × String) k' hkk]
  · simp only [hfind]
    rw [find?_append_nomatch hs ((k, v) : List Char × String) _ hkk]

lemma stage_preserve (hs : Headers) (k : List Char) (v : String)
    (key' : List Char) (val' : String) (hf : hfind hs k = some v)
    (hv : v ≠ "") :
    hfind (if jsFalsy (hfind hs key') then hset hs key' val' else hs) k =
      some v := by
  split
  · next hfalsy =>
    by_cases hk : k = key'
    · subst hk
      rw [hf] at hfalsy
      simp [jsFalsy, hv] at hfalsy
    · rw [hfind_hset_other hs key' val' k hk]
      exact hf
  · exact hf

/-- **C6** (amended): for a plain (`sync: false`) request, a url
containing `https://` passes through unchanged while any other url is
rewritten to the base url, one `/` separator and the url (its own
leading `/`, when present, serving as the separator); every header name
is replaced by its lower-case form (assuming no two supplied names
collide after lowering, and non-empty values); `accept` and
`content-type` are defaulted exactly when absent; and when the session
token is non-empty an `authorization` header built from it is always
attached — the guard reads the capitalized `Authorization` key, which
the preceding lowercasing pass has removed, so a caller-supplied
authorization header (in any casing) is overwritten rather than left in
force. -/
theorem c6_xhr_normalization (sessionToken : String) (base url : List Char)
    (headers : Headers)
    (hlow : (headers.map (fun p => toLowerCase p.1)).Nodup)
    (hvals : ∀ p ∈ headers, p.2 ≠ "") :
    (listContainsSub "https://".data url = true →
      (xhrFixup sessionToken base url headers).1 = url) ∧
    (listContainsSub "https://".data url = false → url.head? = some '/' →
      (xhrFixup sessionToken base url headers).1 = base ++ '/' :: url.tail) ∧
    (listContainsSub "https://".data url = false → url.head? ≠ some '/' →
      (xhrFixup sessionToken base url headers).1 = base ++ '/' :: url) ∧
    (∀ p ∈ (xhrFixup sessionToken base url headers).2,
      toLowerCase p.1 = p.1) ∧
    (∀ p ∈ headers,
      (sessionToken = "" ∨ toLowerCase p.1 ≠ "authorization".data) →
      hfind (xhrFixup sessionToken base url headers).2 (toLowerCase p.1) =
        some p.2) ∧
    ((∀ p ∈ headers, toLowerCase p.1 ≠ "accept".data) →
      hfind (xhrFixup sessionToken base url headers).2 "accept".data =
        some ACCEPT) ∧
    ((∀ p ∈ headers, toLowerCase p.1 ≠ "content-type".data) →
      hfind (xhrFixup sessionToken base url headers).2 "content-type".data =
        some "application/json") ∧
    (sessionToken ≠ "" →
      hfind (xhrFixup sessionToken base url headers).2 "authorization".data =
        some ("Layer session-token=\"" ++ sessionToken ++ "\"")) := by
  have h1eq : (xhrFixup sessionToken base url headers).1 =
      _xhrFixRelativeUrls base url := rfl
  have h2eq : (xhrFixup sessionToken base url headers).2 =
      _xhrFixAuth sessionToken (_xhrFixHeaders headers) := rfl
  set F := (headers.map Prod.fst).foldl fixHeaderNameStep headers with hFdef
  set A := if jsFalsy (hfind F "accept".data) then hset F "accept".data ACCEPT
    else F with hAdef
  set C := if jsFalsy (hfind A "content-type".data) then
    hset A "content-type".data "application/json" else A with hCdef
  have hXFH : _xhrFixHeaders headers = C := rfl
  refine ⟨?_, ?_, ?_, ?_, ?_, ?_, ?_, ?_⟩
  · intro h
    rw [h1eq]
    simp [_xhrFixRelativeUrls, h]
  · intro h hhead
    rcases url with - | ⟨c, t⟩
    · simp at hhead
    · have hc : c = '/' := by simpa using hhead
      subst hc
      rw [h1eq]
      simp [_xhrFixRelativeUrls, h]
  · intro h hhead
    rw [h1eq]
    simp [_xhrFixRelativeUrls, h, hhead]
  · rw [h2eq]
    exact fixupHeaders_lower sessionToken headers
  · intro p hp hc
    have hfF : hfind F (toLowerCase p.1) = some p.2 :=
      foldFix_find headers hlow p hp
    have hpv : p.2 ≠ "" := hvals p hp
    have hfA : hfind A (toLowerCase p.1) = some p.2 := by
      rw [hAdef]
      exact stage_preserve F (toLowerCase p.1) p.2 "accept".data ACCEPT hfF hpv
    have hfC : hfind C (toLowerCase p.1) = some p.2 := by
      rw [hCdef]
      exact stage_preserve A (toLowerCase p.1) p.2 "content-type".data
        "application/json" hfA hpv
    rw [h2eq, hXFH]
    rcases hc with hc | hc
    · simp only [_xhrFixAuth, hc]
      simpa using hfC
    · simp only [_xhrFixAuth]
      split
      · rw [hfind_hset_other _ _ _ _ hc]
        exact hfC
      · exact hfC
  · intro habs
    have hfF : hfind F "accept".data = none :=
      foldFix_find_none headers hlow _ habs
    have hA : A = hset F "accept".data ACCEPT := by
      rw [hAdef, if_pos (by simp [jsFalsy, hfF])]
    have hfA : hfind A "accept".data = some ACCEPT := by
      rw [hA]
      exact hfind_hset_self F _ _
    have hfC : hfind C "accept".data = some ACCEPT := by
      rw [hCdef]
      exact stage_preserve A "accept".data ACCEPT "content-type".data
        "application/json" hfA (by decide)
    rw [h2eq, hXFH]
    simp only [_xhrFixAuth]
    split
    · rw [hfind_hset_other _ _ _ _ (by decide)]
      exact hfC
    · exact hfC
  · intro habs
    have hfF : hfind F "content-type".data = none :=
      foldFix_find_none headers hlow _ habs
    have hfA : hfind A "content-type".data = none := by
      rw [hAdef]
      split
      · rw [hfind_hset_other _ _ _ _ (by decide)]
        exact hfF
      · exact hfF
    have hC : C = hset A "content-type".data "application/json" := by
      rw [hCdef, if_pos (by simp [jsFalsy, hfA])]
    have hfC : hfind C "content-type".data = some "application/json" := by
      rw [hC]
      exact hfind_hset_self A _ _
    rw [h2eq, hXFH]
    simp only [_xhrFixAuth]
    split
    · rw [hfind_hset_other _ _ _ _ (by decide)]
      exact hfC
    · exact hfC
  · intro htok
    have hall := fixHeaders_lower headers
    rw [hXFH] at hall
    have hupper : hfind C "Authorization".data = none :=
      hfind_none_of_upper C hall _ (by decide)
    rw [h2eq, hXFH]
    simp only [_xhrFixAuth]
    rw [if_pos (by simp [htok, hupper, jsFalsy])]
    exact hfind_hset_self C _ _

/-- Witness for C6: a caller `Accept` header is lowered and kept, the
authorization header is attached from the token, and the relative url
is rewritten against the base. -/
theorem c6_xhr_normalization_witness :
    hfind (xhrFixup "tok9" "https://api.layer.com".data "nonces".data
        [("Accept".data, "application/xml")]).2
      (toLowerCase "Accept".data) = some "application/xml" ∧
    hfind (xhrFixup "tok9" "https://api.layer.com".data "nonces".data
        [("Accept".data, "application/xml")]).2 "authorization".data =
      some ("Layer session-token=\"" ++ "tok9" ++ "\"") ∧
    (xhrFixup "tok9" "https://api.layer.com".data "nonces".data
        [("Accept".data, "application/xml")]).1 =
      "https://api.layer.com".data ++ '/' :: "nonces".data :=
  ⟨(c6_xhr_normalization "tok9" "https://api.layer.com".data "nonces".data
      [("Accept".data, "application/xml")] (by decide)
      (by decide)).2.2.2.2.1 ("Accept".data, "application/xml") (by decide)
      (Or.inr (by decide)),
    (c6_xhr_normalization "tok9" "https://api.layer.com".data "nonces".data
      [("Accept".data, "application/xml")] (by decide)
      (by decide)).2.2.2.2.2.2.2 (by decide),
    (c6_xhr_normalization "tok9" "https://api.layer.com".data "nonces".data
      [("Accept".data, "application/xml")] (by decide)
      (by decide)).2.2.1 (by decide) (by decide)⟩

/-- **C6** counterexample: a caller-supplied authorization header is
not left in force — `_xhrFixAuth` tests the capitalized `Authorization`
key after `_xhrFixHeaders` has renamed it to `authorization`, so with a
non-empty session token the caller's value is overwritten. -/
theorem c6_counterexample :
    hfind [(("Authorization".data : List Char), "Bearer mine")]
      "Authorization".data = some "Bearer mine" ∧
    hfind (xhrFixup "t" "https://api.layer.com".data "/conversations".data
        [("Authorization".data, "Bearer mine")]).2 "authorization".data =
      some "Layer session-token=\"t\"" ∧
    ¬ (hfind (xhrFixup "t" "https://api.layer.com".data
          "/conversations".data
          [("Authorization".data, "Bearer mine")]).2 "authorization".data =
        some "Bearer mine") := by
  refine ⟨by decide, by decide, by decide⟩

/-- **C5** (amended): `connect(userId)` reuses the cached session token
only on a trusted device with persisted sessions enabled, a cached
record bound to the same `userId` and unexpired — in which case it goes
straight to the `connected`/`authenticated` (and `ready`) events with
no nonce request.  On user mismatch, a non-trusted device or disabled
persistence the cached data (IndexedDB tables via the dbManager, when
one exists, and the localStorage session entry) is cleared and the full
nonce flow is performed.  On expiry alone (same user, trusted, enabled)
only the localStorage session entry is removed — the cached tables are
retained — and the full nonce flow is performed. -/
theorem c5_cached_session_reuse (s : ClientState) (u : String) (now : Nat)
    (hfresh : s.sessionToken = "") (hls : s.hasLocalStorage = true)
    (hu : u ≠ "") :
    (∀ r : SessionRecord, s.isTrustedDevice = true →
      _isPersistedSessionsDisabled s = false → s.localSession = some r →
      r.userId = u → ¬ r.expires < now → r.sessionToken ≠ "" →
      s.isReady = false →
      (connect s u now).2 =
        [ClientEvent.connected, ClientEvent.authenticated, ClientEvent.ready] ∧
      ClientEvent.nonceRequest ∉ (connect s u now).2 ∧
      (connect s u now).1.sessionToken = r.sessionToken ∧
      (connect s u now).1.isAuthenticated = true ∧
      (connect s u now).1.isConnected = true) ∧
    ((s.isTrustedDevice = false ∨ _isPersistedSessionsDisabled s = true ∨
        (∃ r : SessionRecord, s.localSession = some r ∧ r.userId ≠ u)) →
      (connect s u now).2 = [ClientEvent.nonceRequest] ∧
      (connect s u now).1.localSession = none ∧
      (s.dbManager = true → (connect s u now).1.dbCache = false) ∧
      (connect s u now).1.sessionToken = "") ∧
    (∀ r : SessionRecord, s.isTrustedDevice = true →
      _isPersistedSessionsDisabled s = false → s.localSession = some r →
      r.userId = u → r.expires < now →
      (connect s u now).2 = [ClientEvent.nonceRequest] ∧
      (connect s u now).1.localSession = none ∧
      (connect s u now).1.dbCache = s.dbCache ∧
      (connect s u now).1.sessionToken = "") := by
  refine ⟨?_, ?_, ?_⟩
  · intro r ht hen hrec huid hexp htok hready
    simp only [_isPersistedSessionsDisabled, hls, Bool.not_true,
      Bool.false_or] at hen
    have hpre1 : (connectPrelude s u now).sessionToken = r.sessionToken := by
      simp [connectPrelude, _clearStoredData, _restoreLastSession,
        _hasUserIdChanged, _isPersistedSessionsDisabled, hfresh, hls, hu, ht,
        hen, hrec, huid, hexp]
    have hpre2 : (connectPrelude s u now).isReady = false := by
      simp [connectPrelude, _clearStoredData, _restoreLastSession,
        _hasUserIdChanged, _isPersistedSessionsDisabled, hfresh, hls, hu, ht,
        hen, hrec, huid, hexp, hready]
    obtain ⟨t1, t2, t3, t4⟩ := sessionTokenRestored_spec (connectPrelude s u now)
    rw [connect_eq, if_pos (by rw [hpre1]; exact htok)]
    exact ⟨t4 hpre2, by rw [t4 hpre2]; decide, by rw [t1, hpre1], t2, t3⟩
  · intro hB
    rcases hB with ht | hen | ⟨r, hrec, huid⟩
    · by_cases hdbm : s.dbManager = true <;>
        simp [connect, _clearStoredData, _restoreLastSession, _hasUserIdChanged,
          hfresh, hls, hu, ht, hdbm]
    · simp only [_isPersistedSessionsDisabled, hls, Bool.not_true,
        Bool.false_or] at hen
      by_cases hdbm : s.dbManager = true <;>
        simp [connect, _clearStoredData, _restoreLastSession,
          _isPersistedSessionsDisabled, _hasUserIdChanged, hfresh, hls, hu, hen,
          hdbm]
    · by_cases hdbm : s.dbManager = true <;>
        simp [connect, _clearStoredData, _restoreLastSession, _hasUserIdChanged,
          _isPersistedSessionsDisabled, hfresh, hls, hu, hrec, huid, hdbm]
  · intro r ht hen hrec huid hexp
    simp only [_isPersistedSessionsDisabled, hls, Bool.not_true,
      Bool.false_or] at hen
    simp [connect, _clearStoredData, _restoreLastSession, _hasUserIdChanged,
      _isPersistedSessionsDisabled, hfresh, hls, hu, ht, hen, hrec, huid, hexp]

/-- Witness for C5: a trusted device with a matching unexpired record
shortcuts to `connected`/`authenticated`/`ready`. -/
theorem c5_cached_session_reuse_witness :
    (connect
        (initialState "app" true true (some ⟨true⟩)
          (some ⟨"tok", "alice", 100⟩) true)
        "alice" 50).2 =
      [ClientEvent.connected, ClientEvent.authenticated, ClientEvent.ready] ∧
    (connect
        (initialState "app" true true (some ⟨true⟩)
          (some ⟨"tok", "alice", 100⟩) true)
        "alice" 50).1.sessionToken = "tok" := by
  have h :=
    (c5_cached_session_reuse
      (initialState "app" true true (some ⟨true⟩) (some ⟨"tok", "alice", 100⟩)
        true)
      "alice" 50 rfl rfl (by decide)).1
      ⟨"tok", "alice", 100⟩ rfl rfl rfl rfl (by decide) (by decide) rfl
  exact ⟨h.1, h.2.2.1⟩

/-- **C5** counterexample: on expiry alone (trusted device, persistence
enabled, same user, record expired) the claim says the previously
cached local data — database tables included — is cleared, but
`connect` never calls `_clearStoredData` in that case: only
`_restoreLastSession` removes the localStorage entry, and the cached
tables survive (`dbCache` stays `true`). -/
theorem c5_counterexample :
    (({ initialState "app" true true (some ⟨true⟩)
          (some ⟨"tok", "alice", 5⟩) true with dbManager := true } :
        ClientState).localSession = some ⟨"tok", "alice", 5⟩) ∧
    ((5 : Nat) < 10) ∧
    (connect
        { initialState "app" true true (some ⟨true⟩)
            (some ⟨"tok", "alice", 5⟩) true with dbManager := true }
        "alice" 10).2 = [ClientEvent.nonceRequest] ∧
    (connect
        { initialState "app" true true (some ⟨true⟩)
            (some ⟨"tok", "alice", 5⟩) true with dbManager := true }
        "alice" 10).1.localSession = none ∧
    ¬ ((connect
        { initialState "app" true true (some ⟨true⟩)
            (some ⟨"tok", "alice", 5⟩) true with dbManager := true }
        "alice" 10).1.dbCache = false) := by
  refine ⟨rfl, by decide, ?_, ?_, ?_⟩ <;> decide

end ClientAuthenticator

namespace DurableStore

/-- **C2**: when two instances race to claim one durable queued record,
the first serialized `claim` finds the record and deletes it, the
second finds it gone — exactly one succeeds — and the loser dispatches
nothing. -/
theorem c2_claim_exactly_once (store : List String) (id : String)
    (hmem : id ∈ store) (hnd : store.Nodup) :
    (claim store id).1 = true ∧
    (claim (claim store id).2 id).1 = false ∧
    dispatchIfClaimed (claim (claim store id).2 id).1 id = [] := by
  have h2 : id ∉ store.erase id := hnd.not_mem_erase
  simp [claim, dispatchIfClaimed, hmem, h2]

/-- Witness for C2: a two-record store; the racing claims on `op1`. -/
theorem c2_claim_exactly_once_witness :
    (claim ["op1", "op2"] "op1").1 = true ∧
    (claim (claim ["op1", "op2"] "op1").2 "op1").1 = false ∧
    dispatchIfClaimed (claim (claim ["op1", "op2"] "op1").2 "op1").1 "op1" = [] :=
  c2_claim_exactly_once ["op1", "op2"] "op1" (by decide) (by decide)

end DurableStore

namespace DbManager

/-- **C7**: with `isDisabled` set, every `DbManager` operation —
`writeConversations`, `writeMessages`, `deleteObjects`,
`loadConversations`, `loadMessages`, `getObjects` — leaves the store
untouched and never invokes its callback; nothing is thrown. -/
theorem c7_disabled_degrades_to_noop {V : Type} (db : DbState V)
    (h : db.isDisabled = true) (convs msgs dels : List (DbEntity V))
    (isUpdate : Bool) (tn cid : String) (ids : List String)
    (convOf : V → String) :
    writeConversations db convs isUpdate = db ∧
    writeMessages db msgs isUpdate = db ∧
    deleteObjects db tn dels = db ∧
    loadConversations db = none ∧
    loadMessages db cid convOf = none ∧
    getObjects db tn ids = [] := by
  simp [writeConversations, writeMessages, _writeObjectsV2, deleteObjects,
    loadConversations, _loadAll, loadMessages, _loadByIndex, getObjects, h]

/-- Witness for C7: a concrete disabled store with pending writes,
deletes and reads. -/
theorem c7_disabled_degrades_to_noop_witness :
    writeConversations
        (⟨true, fun _ => []⟩ : DbState Nat) [⟨"c1", 7, false⟩] false =
      (⟨true, fun _ => []⟩ : DbState Nat) ∧
    getObjects (⟨true, fun _ => []⟩ : DbState Nat) "messages" ["m1"] = [] :=
  ⟨(c7_disabled_degrades_to_noop (⟨true, fun _ => []⟩ : DbState Nat) rfl
      [⟨"c1", 7, false⟩] [] [] false "messages" "c" ["m1"] (fun _ => "")).1,
    (c7_disabled_degrades_to_noop (⟨true, fun _ => []⟩ : DbState Nat) rfl
      [⟨"c1", 7, false⟩] [] [] false "messages" "c" ["m1"] (fun _ => "")).2.2.2.2.2⟩

lemma drop_skipBelow (ids : List String) (k : String) :
    ∀ (n i : Nat), ids.length - i ≤ n →
    ids.drop (skipBelow ids i k) =
      (ids.drop i).dropWhile (fun x => decide (x < k)) := by
  intro n
  induction n with
  | zero =>
    intro i hle
    have hge : ids.length ≤ i := by omega
    rw [skipBelow, dif_neg (by omega), List.drop_eq_nil_of_le hge]
    rfl
  | succ n ih =>
    intro i hle
    by_cases h : i < ids.length
    · have hdrop : ids.drop i = ids.get ⟨i, h⟩ :: ids.drop (i + 1) := by
        rw [List.get_eq_getElem]
        exact List.drop_eq_getElem_cons h
      rw [skipBelow, dif_pos h]
      by_cases h2 : ids.get ⟨i, h⟩ < k
      · rw [if_pos h2, ih (i + 1) (by omega), hdrop,
          List.dropWhile_cons_of_pos (by simpa using h2)]
      · rw [if_neg h2, hdrop, List.dropWhile_cons_of_neg (by simpa using h2),
          ← hdrop]
    · rw [skipBelow, dif_neg h, List.drop_eq_nil_of_le (by omega)]
      rfl

lemma getObjectsCursor_nil {V : Type} (sortedIds : List String) (index : Nat)
    (results : List V) :
    getObjectsCursor ([] : List (String × V)) sortedIds index results =
      [results] := by
  rw [getObjectsCursor]

lemma getObjectsCursorSuffix_nil {V : Type} (ids : List String)
    (results : List V) :
    getObjectsCursorSuffix ([] : List (String × V)) ids results = [results] := by
  rw [getObjectsCursorSuffix]

lemma getObjectsCursor_eq_suffix {V : Type} (sortedIds : List String) :
    ∀ (n : Nat) (records : List (String × V)), records.length ≤ n →
    ∀ (index : Nat) (results : List V),
    getObjectsCursor records sortedIds index results =
      getObjectsCursorSuffix records (sortedIds.drop index) results := by
  intro n
  induction n with
  | zero =>
    intro records hlen index results
    have h0 : records = [] := List.length_eq_zero.mp (by omega)
    subst h0
    rw [getObjectsCursor_nil, getObjectsCursorSuffix_nil]
  | succ n ih =>
    intro records hlen index results
    match records with
    | [] => rw [getObjectsCursor_nil, getObjectsCursorSuffix_nil]
    | (key, value) :: rest =>
      have hrestlen : rest.length ≤ n := by
        simp only [List.length_cons] at hlen
        omega
      rw [getObjectsCursor, getObjectsCursorSuffix]
      have hdw : (sortedIds.drop index).dropWhile (fun x => decide (x < key)) =
          sortedIds.drop (skipBelow sortedIds index key) :=
        (drop_skipBelow sortedIds key (sortedIds.length - index) index
          (le_refl _)).symm
      rw [hdw]
      rcases hS : sortedIds.drop (skipBelow sortedIds index key) with - | ⟨id0, restIds⟩
      · have hj : sortedIds.length ≤ skipBelow sortedIds index key := by
          by_contra hcon
          have hlt : skipBelow sortedIds index key < sortedIds.length := by
            omega
          have hcons := List.drop_eq_getElem_cons hlt
          rw [hS] at hcons
          exact List.noConfusion hcons
        simp [dif_neg (not_lt.mpr hj)]
      · have hjlen : skipBelow sortedIds index key < sortedIds.length := by
          by_contra hcon
          rw [List.drop_eq_nil_of_le (by omega)] at hS
          exact absurd hS (by simp)
        have hcons := List.drop_eq_getElem_cons hjlen
        rw [hS] at hcons
        have hid0 : sortedIds[skipBelow sortedIds index key] = id0 :=
          (List.cons.injEq _ _ _ _ ▸ hcons).1.symm
        have hrest : sortedIds.drop (skipBelow sortedIds index key + 1) =
            restIds := (List.cons.injEq _ _ _ _ ▸ hcons).2.symm
        simp only [dif_pos hjlen, List.get_eq_getElem, hid0]
        by_cases hkey : id0 = key
        · subst hkey
          simp only [beq_self_eq_true, if_pos rfl, if_true]
          rcases hres : restIds with - | ⟨id1, restIds'⟩
          · rw [hres] at hrest
            have hlen2 : sortedIds.length ≤ skipBelow sortedIds index id0 + 1 := by
              by_contra hcon
              have hlt2 : skipBelow sortedIds index id0 + 1 < sortedIds.length := by
                omega
              have hcons2 := List.drop_eq_getElem_cons hlt2
              rw [hrest] at hcons2
              exact List.noConfusion hcons2
            rw [dif_neg (not_lt.mpr hlen2)]
          · rw [hres] at hrest
            have hjlen2 : skipBelow sortedIds index id0 + 1 < sortedIds.length := by
              by_contra hcon
              rw [List.drop_eq_nil_of_le (by omega)] at hrest
              exact absurd hrest (by simp)
            have hcons2 := List.drop_eq_getElem_cons hjlen2
            rw [hrest] at hcons2
            have hid1 : sortedIds[skipBelow sortedIds index id0 + 1] = id1 :=
              (List.cons.injEq _ _ _ _ ▸ hcons2).1.symm
            rw [dif_pos hjlen2, hid1,
              ih _ (le_trans ((List.dropWhile_sublist _).length_le) hrestlen),
              hrest]
        · have hbeq : (id0 == key) = false := beq_eq_false_iff_ne.mpr hkey
          simp only [hbeq, Bool.false_eq_true, if_false]
          rw [dif_pos hjlen, hid0,
            ih _ (le_trans ((List.dropWhile_sublist _).length_le) hrestlen),
            hS]
          simp [hkey]

lemma dropWhile_head_false {α : Type} (p : α → Bool) (l : List α) (a : α)
    (t : List α) (h : l.dropWhile p = a :: t) : p a = false := by
  induction l with
  | nil => simp at h
  | cons hd tl ih =>
    by_cases hp : p hd = true
    · rw [List.dropWhile_cons_of_pos hp] at h
      exact ih h
    · rw [List.dropWhile_cons_of_neg hp] at h
      obtain ⟨h1, -⟩ := List.cons.injEq _ _ _ _ ▸ h
      rw [← h1]
      simpa using hp

lemma mem_dropWhile_lt_iff (ids : List String) (key x : String)
    (hx : ¬ x < key) :
    (x ∈ ids.dropWhile (fun i => decide (i < key))) ↔ x ∈ ids := by
  constructor
  · exact fun h => (List.dropWhile_sublist _).subset h
  · intro h
    have hsplit := List.takeWhile_append_dropWhile
      (fun i => decide (i < key)) ids
    rw [← hsplit] at h
    rcases List.mem_append.mp h with h | h
    · exact absurd (by simpa using List.mem_takeWhile_imp h) hx
    · exact h

lemma filter_eq_filter_dropWhile {α : Type} (l : List α) (p f : α → Bool)
    (h : ∀ x ∈ l, p x = true → f x = false) :
    l.filter f = (l.dropWhile p).filter f := by
  conv_lhs => rw [← List.takeWhile_append_dropWhile p l]
  rw [List.filter_append]
  have hnil : (l.takeWhile p).filter f = [] := by
    apply List.filter_eq_nil_iff.mpr
    intro a ha
    have hp := List.mem_takeWhile_imp ha
    have hmem : a ∈ l := (List.takeWhile_sublist _).subset ha
    simp [h a hmem hp]
  rw [hnil, List.nil_append]

lemma cursorSuffix_correct {V : Type} :
    ∀ (n : Nat) (records : List (String × V)), records.length ≤ n →
    ∀ (ids : List String) (results : List V),
    List.Pairwise (fun a b => a.1 < b.1) records →
    List.Pairwise (fun a b : String => a < b) ids →
    getObjectsCursorSuffix records ids results =
      [results ++ (records.filter (fun p => decide (p.1 ∈ ids))).map Prod.snd] := by
  intro n
  induction n with
  | zero =>
    intro records hlen ids results _ _
    have h0 : records = [] := List.length_eq_zero.mp (by omega)
    subst h0
    simp [getObjectsCursorSuffix_nil]
  | succ n ih =>
    intro records hlen ids results hrec hids
    match records with
    | [] => simp [getObjectsCursorSuffix_nil]
    | (key, value) :: rest =>
      have hrestlen : rest.length ≤ n := by
        simp only [List.length_cons] at hlen
        omega
      obtain ⟨hkeyrest, hrestpw⟩ := List.pairwise_cons.mp hrec
      rw [getObjectsCursorSuffix]
      rcases hI : ids.dropWhile (fun i => decide (i < key)) with - | ⟨id0, restIds⟩
      · have hfil : ((key, value) :: rest).filter
            (fun p => decide (p.1 ∈ ids)) = [] := by
          apply List.filter_eq_nil_iff.mpr
          intro p hp
          have hge : ¬ p.1 < key := by
            rcases List.mem_cons.mp hp with h | h
            · rw [h]
              exact lt_irrefl key
            · exact not_lt_of_gt (hkeyrest p h)
          simp only [decide_eq_true_eq]
          intro hmem
          have hmem' : p.1 ∈ ids.dropWhile (fun i => decide (i < key)) :=
            (mem_dropWhile_lt_iff ids key p.1 hge).mpr hmem
          rw [hI] at hmem'
          simp at hmem'
        rw [hfil]
        simp
      · have hid0ge : ¬ id0 < key := by
          simpa using dropWhile_head_false _ ids id0 restIds hI
        have hids' : List.Pairwise (fun a b : String => a < b) (id0 :: restIds) := by
          rw [← hI]
          exact List.Pairwise.sublist (List.dropWhile_sublist _) hids
        obtain ⟨hid0rest, hrestIdsPw⟩ := List.pairwise_cons.mp hids'
        have hmemtr : ∀ r ∈ rest,
            ((r : String × V).1 ∈ ids) ↔ r.1 ∈ id0 :: restIds := by
          intro r hr
          have hgt : key < r.1 := hkeyrest r hr
          rw [← hI]
          exact (mem_dropWhile_lt_iff ids key r.1 (not_lt_of_gt hgt)).symm
        by_cases hkey : id0 = key
        · subst hkey
          have hid0mem : id0 ∈ ids := by
            have hm : id0 ∈ id0 :: restIds := List.mem_cons_self _ _
            rw [← hI] at hm
            exact (List.dropWhile_sublist _).subset hm
          rcases hres : restIds with - | ⟨id1, restIds'⟩
          · subst hres
            have hfilrest : rest.filter (fun p => decide (p.1 ∈ ids)) = [] := by
              apply List.filter_eq_nil_iff.mpr
              intro r hr
              simp only [decide_eq_true_eq]
              intro hmem
              have h2 : r.1 ∈ id0 :: ([] : List String) := (hmemtr r hr).mp hmem
              rcases List.mem_cons.mp h2 with h | h
              · have hlt := hkeyrest r hr
                rw [h] at hlt
                exact lt_irrefl _ hlt
              · simp at h
            have hfilall : ((id0, value) :: rest).filter
                (fun p => decide (p.1 ∈ ids)) = [(id0, value)] := by
              simp [List.filter_cons, hid0mem, hfilrest]
            rw [hfilall]
            simp
          · subst hres
            have hb : (rest.dropWhile
                (fun p => decide (p.1 < id1))).length ≤ n :=
              le_trans ((List.dropWhile_sublist _).length_le) hrestlen
            have hpw1 : List.Pairwise (fun a b => a.1 < b.1)
                (rest.dropWhile (fun p => decide (p.1 < id1))) :=
              List.Pairwise.sublist (List.dropWhile_sublist _) hrestpw
            have hstep := ih _ hb (id1 :: restIds') (results ++ [value]) hpw1
              hrestIdsPw
            simp only [if_pos rfl]
            rw [hstep]
            have hdropfil : rest.filter
                (fun p => decide (p.1 ∈ id1 :: restIds')) =
                (rest.dropWhile (fun p => decide (p.1 < id1))).filter
                  (fun p => decide (p.1 ∈ id1 :: restIds')) := by
              apply filter_eq_filter_dropWhile
              intro x _ hx
              simp only [decide_eq_true_eq] at hx
              simp only [decide_eq_false_iff_not]
              intro hmem
              rcases List.mem_cons.mp hmem with h | h
              · rw [h] at hx
                exact lt_irrefl _ hx
              · have := List.pairwise_cons.mp hrestIdsPw
                exact absurd (lt_trans hx (this.1 x.1 h)) (lt_irrefl _)
            have hfilids : rest.filter (fun p => decide (p.1 ∈ ids)) =
                rest.filter (fun p => decide (p.1 ∈ id1 :: restIds')) := by
              apply List.filter_congr
              intro r hr
              have h1 := hmemtr r hr
              have hgt : id0 < r.1 := hkeyrest r hr
              simp only [decide_eq_decide]
              rw [h1, List.mem_cons]
              constructor
              · rintro (h | h)
                · rw [h] at hgt
                  exact absurd hgt (lt_irrefl _)
                · exact h
              · exact Or.inr
            have hfilall : ((id0, value) :: rest).filter
                (fun p => decide (p.1 ∈ ids)) =
                (id0, value) :: rest.filter (fun p => decide (p.1 ∈ ids)) := by
              simp [List.filter_cons, hid0mem]
            rw [hfilall, hfilids, hdropfil]
            simp
        · have hkeynotin : key ∉ ids := by
            intro hmem
            have hm : key ∈ id0 :: restIds := by
              rw [← hI]
              exact (mem_dropWhile_lt_iff ids key key (lt_irrefl key)).mpr hmem
            have hklt : key < id0 := lt_of_le_of_ne (not_lt.mp hid0ge) (fun h => hkey h.symm)
            rcases List.mem_cons.mp hm with h | h
            · rw [h] at hklt
              exact lt_irrefl _ hklt
            · exact absurd (lt_trans hklt (hid0rest key h)) (lt_irrefl _)
          have hb : (rest.dropWhile
              (fun p => decide (p.1 < id0))).length ≤ n :=
            le_trans ((List.dropWhile_sublist _).length_le) hrestlen
          have hpw1 : List.Pairwise (fun a b => a.1 < b.1)
              (rest.dropWhile (fun p => decide (p.1 < id0))) :=
            List.Pairwise.sublist (List.dropWhile_sublist _) hrestpw
          have hstep := ih _ hb (id0 :: restIds) results hpw1 hids'
          simp only [if_neg hkey]
          rw [hstep]
          have hdropfil : rest.filter
              (fun p => decide (p.1 ∈ id0 :: restIds)) =
              (rest.dropWhile (fun p => decide (p.1 < id0))).filter
                (fun p => decide (p.1 ∈ id0 :: restIds)) := by
            apply filter_eq_filter_dropWhile
            intro x _ hx
            simp only [decide_eq_true_eq] at hx
            simp only [decide_eq_false_iff_not]
            intro hmem
            rcases List.mem_cons.mp hmem with h | h
            · rw [h] at hx
              exact lt_irrefl _ hx
            · exact absurd (lt_trans hx (hid0rest x.1 h)) (lt_irrefl _)
          have hfilids : rest.filter (fun p => decide (p.1 ∈ ids)) =
              rest.filter (fun p => decide (p.1 ∈ id0 :: restIds)) := by
            apply List.filter_congr
            intro r hr
            simp only [decide_eq_decide]
            exact hmemtr r hr
          have hfilall : ((key, value) :: rest).filter
              (fun p => decide (p.1 ∈ ids)) =
              rest.filter (fun p => decide (p.1 ∈ ids)) := by
            simp [List.filter_cons, hkeynotin]
          rw [hfilall, hfilids, hdropfil]

/-- **C9**: on an enabled store whose table holds records strictly
sorted by primary key (the IndexedDB store invariant: unique keys,
cursor walk in ascending key order), `getObjects(tableName, ids,
callback)` with distinct requested ids invokes the callback exactly
once — the run produces a one-element list of callback arguments — and
the argument is precisely the stored records whose key is among the
requested ids, in ascending key order (the order of the sorted table).
Requested ids absent from the table are skipped without error, and an
empty id list yields the empty record list. -/
theorem c9_getObjects_exact {V : Type} (db : DbState V) (tableName : String)
    (ids : List String)
    (hdis : db.isDisabled = false)
    (htable : List.Pairwise (fun a b => a.1 < b.1) (db.tables tableName))
    (hids : ids.Nodup) :
    getObjects db tableName ids =
      [((db.tables tableName).filter
          (fun p => decide (p.1 ∈ ids))).map Prod.snd] := by
  have hperm := List.mergeSort_perm ids (fun a b : String => decide (a ≤ b))
  have hnd : (ids.mergeSort (fun a b => a ≤ b)).Nodup := hperm.nodup_iff.mpr hids
  have htr : ∀ a b c : String, decide (a ≤ b) = true → decide (b ≤ c) = true →
      decide (a ≤ c) = true := by
    intro a b c h1 h2
    simp only [decide_eq_true_eq] at h1 h2 ⊢
    exact le_trans h1 h2
  have hto : ∀ a b : String, (decide (a ≤ b) || decide (b ≤ a)) = true := by
    intro a b
    simpa using le_total a b
  have hsorted := List.sorted_mergeSort htr hto ids
  have hp : List.Pairwise (fun a b : String => a ≤ b)
      (ids.mergeSort (fun a b => a ≤ b)) := by
    refine hsorted.imp ?h
    intro a b h
    simpa using h
  have hand := List.Pairwise.and hp (List.Pairwise.imp (fun h => h) hnd)
  have hstrict : List.Pairwise (fun a b : String => a < b)
      (ids.mergeSort (fun a b => a ≤ b)) :=
    hand.imp (fun h => lt_of_le_of_ne h.1 h.2)
  have heq := getObjectsCursor_eq_suffix
    (ids.mergeSort (fun a b : String => decide (a ≤ b)))
    (db.tables tableName).length (db.tables tableName) (le_refl _) 0 []
  have hcs := cursorSuffix_correct (db.tables tableName).length
    (db.tables tableName) (le_refl _)
    (ids.mergeSort (fun a b : String => decide (a ≤ b))) [] htable hstrict
  have hfe : (db.tables tableName).filter
      (fun p => decide (p.1 ∈ ids.mergeSort (fun a b : String => decide (a ≤ b)))) =
      (db.tables tableName).filter (fun p => decide (p.1 ∈ ids)) := by
    apply List.filter_congr
    intro p _
    simp only [decide_eq_decide]
    exact hperm.mem_iff
  simp only [getObjects, hdis, Bool.false_eq_true, if_false]
  rw [heq, List.drop_zero, hcs, hfe]
  simp

/-- Witness for C9: the table `{a ↦ 1, b ↦ 2, c ↦ 3}` queried for the
unsorted id list `["c", "a"]` fires the callback once, with `[1, 3]`
(the matching records in ascending key order). -/
theorem c9_getObjects_exact_witness :
    getObjects (⟨false, fun _ => [("a", 1), ("b", 2), ("c", 3)]⟩ : DbState Nat)
      "conversations" ["c", "a"] = [[1, 3]] := by
  rw [c9_getObjects_exact
    (⟨false, fun _ => [("a", 1), ("b", 2), ("c", 3)]⟩ : DbState Nat)
    "conversations" ["c", "a"] rfl
    (by simp
        decide)
    (by decide)]
  decide

end DbManager

namespace DbV1

/-- **C8**: a record written through `_writeObjects` is first issued as
an insert (`store.add`); the `put` upsert fallback runs exactly when
the insert failed because the key was already present, and in either
case the record stored under the key afterwards is the written one —
re-writing an existing logical record replaces it instead of failing.
When the key is new the record is simply appended. -/
theorem c8_insert_first_upsert_fallback {V : Type} (table : List (String × V))
    (item : String × V) (isUpdate : Bool) :
    _writeObjects isUpdate table [item] = ((writeItem table item).1, 1) ∧
    ((writeItem table item).2 = true ↔
      table.any (fun p => p.1 == item.1) = true) ∧
    (writeItem table item).1.find? (fun p => p.1 == item.1) = some item ∧
    (table.any (fun p => p.1 == item.1) = false →
      (writeItem table item).1 = table ++ [item]) := by
  refine ⟨by simp [_writeObjects], ?_, ?_, ?_⟩
  · by_cases h : table.any (fun p => p.1 == item.1) = true <;>
      simp [writeItem, idbAdd, h]
  · by_cases h : table.any (fun p => p.1 == item.1) = true
    · simp only [writeItem, idbAdd, if_pos h, idbPut]
      exact find?_map_replace table item h
    · have h' : table.any (fun p => p.1 == item.1) = false :=
        Bool.eq_false_iff.mpr h
      have := find?_append_single table item h'
      simpa [writeItem, idbAdd, h'] using this
  · intro h
    simp [writeItem, idbAdd, h]

/-- Witness for C8: rewriting the existing key `b` takes the `put`
fallback and replaces the stored record. -/
theorem c8_insert_first_upsert_fallback_witness :
    (writeItem [("a", 1), ("b", 2)] ("b", 9)).2 = true ∧
    (writeItem [("a", 1), ("b", 2)] ("b", 9)).1.find?
      (fun p => p.1 == "b") = some ("b", 9) :=
  ⟨(c8_insert_first_upsert_fallback [("a", 1), ("b", 2)] ("b", 9) false).2.1.mpr
      (by decide),
    (c8_insert_first_upsert_fallback [("a", 1), ("b", 2)] ("b", 9) false).2.2.1⟩

end DbV1

end LayerWebSDK
